import Mathlib

/-! Danbooru-Artist-web: record reconciliation and aggregation.

A shallow embedding of the client logic of `script.js` (duplicate detection in `createArtist`,
chain composition in `addArtistTriggerWordsToChain`, reverse matching in
`saveArtistChainAsNewArtist`, the filter and sort pipeline of `filterAndRender`, the
training-count aggregate, the sample-image mutations) and of the handlers of `server.js`
(field normalisation, create, update, delete, delete-image over a directory of JSON documents),
with the properties proved about them.

Modelling conventions.
* A JavaScript string is a `List Char`. The default `Array.prototype.sort` order compares UTF-16
  code units; the model compares code points, which is the same total order on the Basic
  Multilingual Plane. Only totality and antisymmetry of the order are used in proofs.
* `String.prototype.toLowerCase`, `localeCompare` and the time value of a date are supplied by
  the browser and are fields of `Host`; every general theorem holds for every host, under the
  stated properties of these library functions where one is needed. The concrete instances use a
  host that folds the ASCII letters, on ASCII input, where it agrees with every browser.
* A JavaScript number is NaN, an infinity or an integer-valued double (`JsNumber`); conversion
  from an exact integer and addition round to 53 significant bits, ties to even, and overflow
  to infinity.
* The images directory is a list of files; `fs.readdirSync` lists it sorted by name.
* A DOM input is the string last assigned to it.
-/

/-- A JavaScript string. -/
abbrev Str := List Char

/-! ## String primitives -/

/-- The characters removed by `String.prototype.trim` and skipped by `parseInt`: ECMAScript
WhiteSpace and LineTerminator (TAB, LF, VT, FF, CR, SP, NBSP, the Unicode space separators,
LS, PS and the byte-order mark). -/
def isWhiteSpace (c : Char) : Bool :=
  c.toNat ∈ [9, 10, 11, 12, 13, 32, 160, 5760, 8192, 8193, 8194, 8195, 8196, 8197, 8198,
    8199, 8200, 8201, 8202, 8232, 8233, 8239, 8287, 12288, 65279]

/-- `s.trim()`: drop leading, then trailing, white space. -/
def trim (s : Str) : Str := (s.dropWhile isWhiteSpace).rdropWhile isWhiteSpace

/-- `s.split(',')`: the pieces between commas; the empty string splits into one empty piece. -/
def split : Str → List Str
  | [] => [[]]
  | c :: cs =>
    if c = ',' then [] :: split cs
    else match split cs with
      | [] => [[c]]
      | p :: ps => (c :: p) :: ps

/-- `xs.join(sep)`. -/
def join (sep : Str) : List Str → Str
  | [] => []
  | [x] => x
  | x :: y :: rest => x ++ sep ++ join sep (y :: rest)

/-- The restriction of `toLowerCase` to the ASCII letters A-Z. It is the folding function of the
host used in the concrete instances; the strings folded there are ASCII, and on those it agrees
with `String.prototype.toLowerCase`. -/
def asciiToLowerCase (s : Str) : Str := s.map Char.toLower

/-- What the browser supplies: `String.prototype.toLowerCase`, `String.prototype.localeCompare`
and the time value of `new Date(s)`, `none` standing for an invalid date. Of `toLowerCase` two
facts are recorded, both true in every browser: it maps the empty string, and no other string,
to the empty string. Nothing else is assumed of it, so letters outside ASCII fold as the
browser folds them. -/
structure Host where
  toLowerCase : Str → Str
  localeCompare : Str → Str → Int
  dateValue : Str → Option Int
  /-- The lower-case form of the empty string is the empty string. -/
  toLowerCase_nil : toLowerCase [] = []
  /-- The lower-case form of a non-empty string is not empty. -/
  toLowerCase_ne_nil : ∀ s, s ≠ [] → toLowerCase s ≠ []

/-- The order used by `Array.prototype.sort()` without a comparator: lexicographic on code
values, a proper prefix first. -/
def strLe : Str → Str → Bool
  | [], _ => true
  | _ :: _, [] => false
  | a :: as, b :: bs =>
    if a.toNat < b.toNat then true
    else if b.toNat < a.toNat then false
    else strLe as bs

/-- `xs.sort()` on an array of strings. -/
def sort (l : List Str) : List Str := l.insertionSort (fun a b => strLe a b = true)

/-- `s.includes(searchString)`: some tail of `s` starts with `searchString`. -/
def includes (s searchString : Str) : Bool :=
  s.tails.any (fun t => searchString.isPrefixOf t)

/-- `s.split(',').map(s => s.trim()).filter(Boolean)`, the tokenizer used for the ID, tag,
trigger-word and chain inputs (script.js 448, 449, 550, 559, 560, 583, 613, 614). -/
def splitTrimFilter (s : Str) : List Str :=
  ((split s).map trim).filter (fun p => p ≠ [])

/-- `set.add(x)` on a JavaScript `Set` kept in insertion order. -/
def setAdd {α : Type} [DecidableEq α] (set : List α) (x : α) : List α :=
  if x ∈ set then set else set ++ [x]

/-- `[...new Set(xs)]`: the elements of `xs` in order of first insertion. -/
def newSet (xs : List Str) : List Str := xs.foldl setAdd []

/-! ## Numbers -/

/-- A JavaScript number as this program meets it: NaN, an infinity, or an integer-valued
double. The functions below put into `finite` only integers that a double holds exactly
(`JsNumber.ofInt` rounds), and zero stands for both zeros. -/
inductive JsNumber where
  | nan
  | infinity (negative : Bool)
  | finite (n : Int)
deriving DecidableEq

/-- The number of binary digits of `n`, by halving at most `fuel` times. -/
def bitLengthAux : Nat → Nat → Nat
  | 0, _ => 0
  | fuel + 1, n => if n = 0 then 0 else bitLengthAux fuel (n / 2) + 1

/-- The number of binary digits of `n` (0 for 0). -/
def bitLength (n : Nat) : Nat := bitLengthAux n n

/-- The integer nearest to `a` that has at most 53 significant bits, ties going to the even
significand: the magnitude of the double nearest to `a`, before overflow is looked at. -/
def roundToDouble (a : Nat) : Nat :=
  if a < 2 ^ 53 then a
  else
    let e := bitLength a - 53
    let q := a / 2 ^ e
    let r := a % 2 ^ e
    let half := 2 ^ (e - 1)
    if r > half ∨ (r = half ∧ q % 2 = 1) then (q + 1) * 2 ^ e else q * 2 ^ e

/-- The Number value of an exact integer: the nearest double, an infinity when the rounded
magnitude reaches 2^1024. -/
def JsNumber.ofInt (n : Int) : JsNumber :=
  if bitLength (roundToDouble n.natAbs) > 1024 then .infinity (decide (n < 0))
  else .finite (if n < 0 then -(roundToDouble n.natAbs : Int) else (roundToDouble n.natAbs : Int))

/-- Unary minus. -/
def JsNumber.neg : JsNumber → JsNumber
  | .nan => .nan
  | .infinity negative => .infinity (!negative)
  | .finite n => .finite (-n)

/-- The sum `a + b` of two numbers. -/
def JsNumber.add : JsNumber → JsNumber → JsNumber
  | .nan, _ => .nan
  | _, .nan => .nan
  | .infinity s, .infinity t => if s = t then .infinity s else .nan
  | .infinity s, .finite _ => .infinity s
  | .finite _, .infinity t => .infinity t
  | .finite a, .finite b => JsNumber.ofInt (a + b)

/-- The difference `a - b` of two numbers. -/
def JsNumber.sub (a b : JsNumber) : JsNumber := a.add b.neg

/-- `x || 0` on a number: NaN and 0 are falsy and give 0, any other number stays. -/
def JsNumber.orZero : JsNumber → JsNumber
  | .nan => .finite 0
  | .infinity negative => .infinity negative
  | .finite n => if n = 0 then .finite 0 else .finite n

/-- How `Array.prototype.sort` reads the number a comparator returns: NaN as 0, otherwise by
its sign. -/
def JsNumber.comparatorValue : JsNumber → Int
  | .nan => 0
  | .infinity negative => if negative then -1 else 1
  | .finite n => n

/-- The number of decimal digits of `a`. -/
def decimalLength (a : Nat) : Nat := (Nat.toDigits 10 a).length

/-- Among the two multiples of `10 ^ p` next to `a`, the one that reads back as the double
`a`; the closer one when both do, the one with the even digit string when they are equally
close. -/
def roundTripCandidate (a p : Nat) : Option Nat :=
  let lo := a / 10 ^ p * 10 ^ p
  let hi := lo + 10 ^ p
  let loOk := decide (roundToDouble lo = a)
  let hiOk := decide (roundToDouble hi = a)
  if loOk && hiOk then
    (if a - lo < hi - a then some lo
     else if hi - a < a - lo then some hi
     else if (lo / 10 ^ p) % 2 = 0 then some lo else some hi)
  else if loOk then some lo
  else if hiOk then some hi
  else none

/-- The first digit of the shortest decimal numeral that reads back as the double `a`, which is
the digit before the point when `a` is printed in exponent form. -/
def shortestLeadingDigit (a : Nat) : Nat :=
  match (List.range 17).findSome?
      (fun k => roundTripCandidate a (decimalLength a - (k + 1))) with
  | some v => v / 10 ^ (decimalLength v - 1)
  | none => a / 10 ^ (decimalLength a - 1)

/-- `parseInt(x)` for a number `x`: the number is printed first. Below 10^21 an integer prints
as its digits and reads back as itself; from 10^21 on it prints in exponent form and only the
digit before the point is read; NaN and the infinities print as words, which do not parse. -/
def parseIntOfNumber : JsNumber → JsNumber
  | .nan => .nan
  | .infinity _ => .nan
  | .finite n =>
    if n.natAbs < 10 ^ 21 then .finite n
    else if n < 0 then .finite (-(shortestLeadingDigit n.natAbs : Int))
    else .finite (shortestLeadingDigit n.natAbs : Int)

/-! ## Records -/

/-- One entry of a `trainingCount` array as JSON holds it: a number (`num n` is the number read
from the integer literal `n`), a string, or null. -/
inductive Count where
  | num (n : Int)
  | str (s : Str)
  | null
deriving DecidableEq

/-- The `trainingCount` field of a record: missing, a bare entry, or an array of entries. -/
inductive CountField where
  | absent
  | scalar (c : Count)
  | array (cs : List Count)
deriving DecidableEq

/-- An artist record as held in `artistsData`. `name`, `id` and `createTime` are always set by
the create path; the other fields may be missing (`none`), and an array-valued field that is
present is an array of strings. -/
structure Artist where
  id : Int
  name : Str
  artistId : Option (List Str)
  trainingCount : CountField
  triggerWords : Option (List Str)
  tags : Option (List Str)
  styleDescription : Option Str
  createTime : Str
  previewImage : Option Str
  sampleImages : Option (List Str)
deriving DecidableEq

/-! ## createArtist: duplicate detection (script.js 579-606) -/

/-- The candidate ID list read from the create form (script.js 582-583). -/
def newArtistIdOf (newArtistIdInput : Str) : List Str :=
  if newArtistIdInput = [] then [] else splitTrimFilter newArtistIdInput

/-- The comparison key `ids.map(id => id.toLowerCase()).sort().join(',')` (script.js 592, 596). -/
def sortedIdString (host : Host) (ids : List Str) : Str :=
  join [','] (sort (ids.map host.toLowerCase))

/-- The duplicate check `isDuplicateSet` of createArtist (script.js 594-600). -/
def isDuplicateSet (host : Host) (newArtistId : List Str) (artistsData : List Artist) : Bool :=
  artistsData.any fun artist =>
    match artist.artistId with
    | some ids => decide (sortedIdString host ids = sortedIdString host newArtistId)
    | none => false

/-- How createArtist leaves its validation part: it returns after the required-field alert,
returns after the duplicate alert, or goes on to build the record and send it to the store. -/
inductive CreateOutcome where
  | missingRequired
  | duplicateSet
  | proceed (newArtistName : Str) (newArtistId : List Str)
deriving DecidableEq

/-- The validation part of createArtist (script.js 580-605). -/
def createArtist (host : Host) (nameInput idInput : Str) (artistsData : List Artist) :
    CreateOutcome :=
  let newArtistName := trim nameInput
  let newArtistId := newArtistIdOf idInput
  if newArtistName = [] ∨ newArtistId.length = 0 then .missingRequired
  else if isDuplicateSet host newArtistId artistsData then .duplicateSet
  else .proceed newArtistName newArtistId

/-- Two ID lists have the same set of case-folded elements, order and multiplicity ignored. -/
def sameIdSet (host : Host) (a b : List Str) : Prop :=
  (∀ x ∈ a.map host.toLowerCase, x ∈ b.map host.toLowerCase) ∧
  (∀ x ∈ b.map host.toLowerCase, x ∈ a.map host.toLowerCase)

instance (host : Host) (a b : List Str) : Decidable (sameIdSet host a b) := by
  unfold sameIdSet; infer_instance

/-- Two ID lists agree up to the order of their elements and the case of their letters: their
case-folded forms, folded as the browser folds them, are reorderings of each other. -/
def caseFoldedPerm (host : Host) (a b : List Str) : Prop :=
  (a.map host.toLowerCase).Perm (b.map host.toLowerCase)

/-- Two records whose artistId arrays agree up to order and letter case (both missing counts as
agreeing). -/
def sameIdsUpToOrderAndCase (host : Host) (r r' : Artist) : Prop :=
  match r.artistId, r'.artistId with
  | some a, some b => caseFoldedPerm host a b
  | none, none => True
  | _, _ => False

/-- A stored record with the given artistId array, used in examples. -/
def mkArtist (id : Int) (name : Str) (ids : List Str) : Artist :=
  { id := id, name := name, artistId := some ids, trainingCount := .array [.num 0],
    triggerWords := some [], tags := some [], styleDescription := some [],
    createTime := "2024-01-01".toList, previewImage := none, sampleImages := some [] }

/-! ## addArtistTriggerWordsToChain (script.js 441-455) -/

/-- The new value of the chain input after a gallery click on `artist`, given its current value;
the input is left alone when the record has no trigger words. -/
def addArtistTriggerWordsToChain (artist : Artist) (chainValue : Str) : Str :=
  match artist.triggerWords with
  | some (w :: ws) =>
    let currentChain := trim chainValue
    let wordsToAdd := join [',', ' '] (w :: ws)
    let existingWords := splitTrimFilter currentChain
    let newWords := splitTrimFilter wordsToAdd
    let combinedWords := newSet (existingWords ++ newWords)
    join [',', ' '] combinedWords
  | _ => chainValue

/-- First-occurrence deduplication by exact string equality, as the specification words it: keep
an element, then drop its later copies. -/
def firstOccurrences : List Str → List Str
  | [] => []
  | x :: xs => x :: (firstOccurrences xs).filter (fun y => y ≠ x)

/-- A canonical token: non-empty, comma-free, with no leading or trailing white space. -/
def IsToken (w : Str) : Prop := w ≠ [] ∧ ',' ∉ w ∧ trim w = w

/-- A stored record with the given trigger words, used in examples. -/
def withWords (words : List Str) : Artist :=
  { id := 7, name := "w".toList, artistId := some ["id7".toList], trainingCount := .array [.num 3],
    triggerWords := some words, tags := none, styleDescription := none,
    createTime := "2024-01-01".toList, previewImage := none, sampleImages := none }

/-! ## saveArtistChainAsNewArtist: reverse matching (script.js 255-298) -/

/-- The two sets built by reverse matching, in insertion order. -/
structure MatchResult where
  matchedArtistIds : List Str
  matchedTrainingCounts : List Count
deriving DecidableEq

/-- The `chainWords` array (script.js 255, 272). -/
def chainWordsOf (host : Host) (chainValue : Str) : List Str :=
  ((split (trim chainValue)).map (fun s => host.toLowerCase (trim s))).filter
    (fun s => s ≠ [])

/-- The test `artistHasMatchingTriggerWord` (script.js 280-282). -/
def artistHasMatchingTriggerWord (host : Host) (chainWords triggerWords : List Str) : Bool :=
  triggerWords.any (fun artistWord => decide (host.toLowerCase artistWord ∈ chainWords))

/-- The body of the `artistsData.forEach` callback (script.js 277-294), as a step on the two
sets. -/
def matchArtist (host : Host) (chainWords : List Str) (acc : MatchResult) (artist : Artist) :
    MatchResult :=
  match artist.triggerWords with
  | some (w :: ws) =>
    if artistHasMatchingTriggerWord host chainWords (w :: ws) then
      { matchedArtistIds :=
          match artist.artistId with
          | some ids => ids.foldl setAdd acc.matchedArtistIds
          | none => acc.matchedArtistIds
        matchedTrainingCounts :=
          match artist.trainingCount with
          | .array cs => cs.foldl setAdd acc.matchedTrainingCounts
          | _ => acc.matchedTrainingCounts }
    else acc
  | _ => acc

/-- The sets `matchedArtistIds` and `matchedTrainingCounts` computed by
saveArtistChainAsNewArtist once the chain panel is enabled (script.js 272-294). -/
def saveArtistChainAsNewArtist (host : Host) (chainValue : Str) (artistsData : List Artist) :
    MatchResult :=
  artistsData.foldl (matchArtist host (chainWordsOf host chainValue)) ⟨[], []⟩

/-- The chain's tokens as the specification words them: split on ',', trimmed, case-folded,
empties dropped. -/
def chainTokensFolded (host : Host) (chainText : Str) : List Str :=
  (((split chainText).map trim).map host.toLowerCase).filter (fun s => s ≠ [])

/-- A record matches a chain when one of its trigger words, case-folded, is one of the chain's
tokens. -/
def recordMatches (host : Host) (chainText : Str) (r : Artist) : Prop :=
  ∃ w ∈ r.triggerWords.getD [], host.toLowerCase w ∈ chainTokensFolded host chainText

/-- A stored record with the given IDs, counts and trigger words, used in examples. -/
def storedRecord (id : Int) (ids : List Str) (counts : List Count) (words : List Str) : Artist :=
  { id := id, name := "n".toList, artistId := some ids, trainingCount := .array counts,
    triggerWords := some words, tags := none, styleDescription := none,
    createTime := "2024-01-01".toList, previewImage := none, sampleImages := none }

/-! ## The training-count aggregate (script.js 321-322, 380-382, 404-406, 481-483) -/

/-- The value of a character as a digit, for radices up to 36. -/
def digitValue (c : Char) : Option Nat :=
  let n := c.toNat
  if 48 ≤ n ∧ n ≤ 57 then some (n - 48)
  else if 97 ≤ n ∧ n ≤ 122 then some (n - 87)
  else if 65 ≤ n ∧ n ≤ 90 then some (n - 55)
  else none

/-- Whether a character is a digit of the given radix. -/
def isRadixDigit (radix : Nat) (c : Char) : Bool :=
  match digitValue c with
  | some d => decide (d < radix)
  | none => false

/-- The number written by a string of digits in the given radix. -/
def digitsValue (radix : Nat) (z : Str) : Nat :=
  z.foldl (fun acc c => acc * radix + (digitValue c).getD 0) 0

/-- The exact integer `parseInt(string)` reads, with no radix argument, before it is turned
into a Number; `none` when no digit is read (the result is then NaN): skip leading white space,
read a sign, read a `0x` or `0X` marker as radix 16, then take the longest run of digits. -/
def parseIntExact (string : Str) : Option Int :=
  let s := string.dropWhile isWhiteSpace
  let sign : Int :=
    match s with
    | '-' :: _ => -1
    | _ => 1
  let s :=
    match s with
    | '-' :: rest => rest
    | '+' :: rest => rest
    | _ => s
  let radix : Nat :=
    match s with
    | '0' :: 'x' :: _ => 16
    | '0' :: 'X' :: _ => 16
    | _ => 10
  let s :=
    match s with
    | '0' :: 'x' :: rest => rest
    | '0' :: 'X' :: rest => rest
    | _ => s
  let z := s.takeWhile (isRadixDigit radix)
  if z = [] then none else some (sign * (digitsValue radix z : Int))

/-- `parseInt(string)`: the Number value of the integer read, NaN when no digit is read. (For
more than 20 significant decimal digits ECMAScript lets an engine approximate; the model rounds
correctly, as V8 does.) -/
def parseInt (string : Str) : JsNumber :=
  match parseIntExact string with
  | some v => JsNumber.ofInt v
  | none => .nan

/-- `parseInt(c)` on a training-count entry. -/
def parseIntCount : Count → JsNumber
  | .num n => parseIntOfNumber (JsNumber.ofInt n)
  | .str s => parseInt s
  | .null => .nan

/-- `parseInt(c) || 0`. -/
def parseIntOrZero (c : Count) : JsNumber := (parseIntCount c).orZero

/-- The sort key `countA` of the comparator in filterAndRender (script.js 321-322). -/
def sortCount (a : Artist) : JsNumber :=
  match a.trainingCount with
  | .array cs => cs.foldl (fun sum c => sum.add (parseIntOrZero c)) (.finite 0)
  | .scalar c => parseIntOrZero c
  | .absent => .finite 0

/-- The `displayTrainingCount` of renderArtistList (script.js 380-382). -/
def renderArtistList_displayTrainingCount (artist : Artist) : JsNumber :=
  match artist.trainingCount with
  | .array cs => cs.foldl (fun sum c => sum.add (parseIntOrZero c)) (.finite 0)
  | .scalar c => parseIntOrZero c
  | .absent => .finite 0

/-- The `displayTrainingCount` of renderGallery (script.js 404-406). -/
def renderGallery_displayTrainingCount (artist : Artist) : JsNumber :=
  match artist.trainingCount with
  | .array cs => cs.foldl (fun sum c => sum.add (parseIntOrZero c)) (.finite 0)
  | .scalar c => parseIntOrZero c
  | .absent => .finite 0

/-- The `displayTrainingCount` of loadArtistDetails (script.js 481-483). -/
def loadArtistDetails_displayTrainingCount (artist : Artist) : JsNumber :=
  match artist.trainingCount with
  | .array cs => cs.foldl (fun sum c => sum.add (parseIntOrZero c)) (.finite 0)
  | .scalar c => parseIntOrZero c
  | .absent => .finite 0

/-- The integer value of an entry when it parses as an integer, 0 otherwise, as the
specification words it: an exact integer, not a double. -/
def integerValueOrZero (entry : Count) : Int :=
  match entry with
  | .num n => n
  | .str s => (parseIntExact s).getD 0
  | .null => 0

/-- The summed training count of a record as the specification words it: the exact sum of the
integer values of its entries. -/
def summedTrainingCount (a : Artist) : Int :=
  match a.trainingCount with
  | .array cs => (cs.map integerValueOrZero).sum
  | .scalar c => integerValueOrZero c
  | .absent => 0

/-- The entries of a record's trainingCount, none when the field is missing. -/
def countEntries (a : Artist) : List Count :=
  match a.trainingCount with
  | .array cs => cs
  | .scalar c => [c]
  | .absent => []

/-- The magnitudes of the entries add up to less than 2^53, so that every value met while
summing is an integer that a double holds exactly. -/
def SafeCounts (cs : List Count) : Prop :=
  (cs.map (fun c => (integerValueOrZero c).natAbs)).sum < 2 ^ 53

/-! ## filterAndRender: filter and sort (script.js 304-328) -/

/-- The predicate passed to `filter` (script.js 308-315). -/
def matchesSearchTerm (host : Host) (currentSearchTerm : Str) (artist : Artist) : Bool :=
  includes (host.toLowerCase artist.name) currentSearchTerm ||
  (match artist.artistId with
    | some ids => ids.any (fun id => includes (host.toLowerCase id) currentSearchTerm)
    | none => false) ||
  (match artist.styleDescription with
    | some d => decide (d ≠ []) && includes (host.toLowerCase d) currentSearchTerm
    | none => false) ||
  (match artist.triggerWords with
    | some ws => ws.any (fun word => includes (host.toLowerCase word) currentSearchTerm)
    | none => false) ||
  (match artist.tags with
    | some ts => ts.any (fun tag => includes (host.toLowerCase tag) currentSearchTerm)
    | none => false)

/-- The array `filteredArtists` (script.js 305-316). -/
def filteredArtists (host : Host) (artistsData : List Artist) (currentSearchTerm : Str) :
    List Artist :=
  if currentSearchTerm ≠ [] then artistsData.filter (matchesSearchTerm host currentSearchTerm)
  else artistsData

/-- The comparator passed to `sort` (script.js 318-328), as `Array.prototype.sort` reads its
result; a NaN difference counts as 0. -/
def compareArtists (host : Host) (sortBy : Str) (a b : Artist) : Int :=
  if sortBy = "count".toList then ((sortCount b).sub (sortCount a)).comparatorValue
  else if sortBy = "name".toList then host.localeCompare a.name b.name
  else if sortBy = "date".toList then
    match host.dateValue b.createTime, host.dateValue a.createTime with
    | some tb, some ta => tb - ta
    | _, _ => 0
  else 0

/-- `xs.sort(comparefn)`: a stable sort that puts `a` before `b` when `comparefn a b ≤ 0`. -/
def arraySort {α : Type} (comparefn : α → α → Int) (l : List α) : List α :=
  l.insertionSort (fun a b => comparefn a b ≤ 0)

/-- The array `sortedArtists` handed to renderArtistList and renderGallery: the view. -/
def sortedArtists (host : Host) (artistsData : List Artist) (currentSearchTerm sortBy : Str) :
    List Artist :=
  arraySort (compareArtists host sortBy) (filteredArtists host artistsData currentSearchTerm)

/-- The search box listener (script.js 94-97): the new `currentSearchTerm`. -/
def onSearchInput (host : Host) (value : Str) : Str := host.toLowerCase value

/-- The filter rule as the specification words it, for the term typed in the search box. -/
def searchKeeps (host : Host) (term : Str) (r : Artist) : Prop :=
  term = [] ∨
  host.toLowerCase term <:+: host.toLowerCase r.name ∨
  (∃ ids, r.artistId = some ids ∧
    ∃ id ∈ ids, host.toLowerCase term <:+: host.toLowerCase id) ∨
  (∃ d, r.styleDescription = some d ∧ host.toLowerCase term <:+: host.toLowerCase d) ∨
  (∃ ws, r.triggerWords = some ws ∧
    ∃ w ∈ ws, host.toLowerCase term <:+: host.toLowerCase w) ∨
  (∃ ts, r.tags = some ts ∧ ∃ t ∈ ts, host.toLowerCase term <:+: host.toLowerCase t)

/-- A record that has only a name and tags, every other optional field missing. -/
def taggedOnly (name : Str) (tags : List Str) : Artist :=
  { id := 9, name := name, artistId := none, trainingCount := .absent,
    triggerWords := none, tags := some tags, styleDescription := none,
    createTime := "2024-01-01".toList, previewImage := none, sampleImages := none }

/-! ## filterAndRender: selection (script.js 333-345) -/

/-- The global view state of script.js (lines 5-9). -/
structure ViewState where
  artistsData : List Artist
  currentArtist : Option Artist
  sortBy : Str
  currentSearchTerm : Str

/-- The state after filterAndRender. The view is built on a copy of `artistsData`
(script.js 305), so the sort does not touch the list itself; the selection is cleared when no
record of the view has the id of the selected one (script.js 334-342). -/
def filterAndRender (host : Host) (st : ViewState) : ViewState :=
  let sorted := sortedArtists host st.artistsData st.currentSearchTerm st.sortBy
  match st.currentArtist with
  | some cur =>
    match sorted.find? (fun a => decide (a.id = cur.id)) with
    | some _ => st
    | none => { st with currentArtist := none }
  | none => st

/-- A host that folds the ASCII letters and whose collation ignores their case and otherwise
follows code values; it serves the concrete instances below. Wherever an instance folds a
string, the string is ASCII, and there this host folds as every browser does. -/
def caseInsensitiveHost : Host :=
  { toLowerCase := asciiToLowerCase
    localeCompare := fun a b =>
      if strLe (asciiToLowerCase a) (asciiToLowerCase b) then
        (if strLe (asciiToLowerCase b) (asciiToLowerCase a) then 0 else -1)
      else 1
    dateValue := fun _ => none
    toLowerCase_nil := rfl
    toLowerCase_ne_nil := fun s h => by simpa [asciiToLowerCase] using h }

/-- A record with the given id, name and counts, used in examples. -/
def named (id : Int) (name : Str) (counts : List Count) : Artist :=
  { id := id, name := name, artistId := some [], trainingCount := .array counts,
    triggerWords := none, tags := none, styleDescription := none,
    createTime := "2024-01-01".toList, previewImage := none, sampleImages := none }

/-! ## Field normalisation (server.js 165-201, script.js 550-551, 583, 611) -/

/-- A multi-valued field of a JSON request body or stored document: missing, a string, a
number, or an array. -/
inductive JsonField (α : Type) where
  | absent
  | text (s : Str)
  | number (n : Int)
  | array (l : List α)
deriving DecidableEq

/-- `s.split(',').map(s => parseInt(s.trim()) || 0)`, the array before the NaN filter. -/
def parsedPieces (s : Str) : List JsNumber :=
  (split s).map (fun p => (parseInt (trim p)).orZero)

/-- `xs.filter(c => !isNaN(c))` on an array of numbers: NaN entries are dropped, every other
number is kept. -/
def filterNotNaN (xs : List JsNumber) : List JsNumber :=
  xs.filter (fun c => decide (c ≠ JsNumber.nan))

/-- `s.split(',').map(s => parseInt(s.trim()) || 0).filter(c => !isNaN(c))`
(server.js 171, 193; script.js 551, 611): the array of numbers held in memory. -/
def parseNumbers (s : Str) : List JsNumber := filterNotNaN (parsedPieces s)

/-- A number as `JSON.stringify` writes it into a request body, an answer or a document: JSON
has no NaN and no infinity, they are written as null. -/
def jsonOfNumber : JsNumber → Count
  | .finite n => .num n
  | .infinity _ => .null
  | .nan => .null

/-- The normalised trainingCount of a string as it leaves in JSON: `parseNumbers`, serialised. -/
def parseCounts (s : Str) : List Count := (parseNumbers s).map jsonOfNumber

/-- The number a comma-separated piece stands for, as the specification words it: its parsed
integer, or 0 when it does not parse. -/
def pieceNumber (p : Str) : JsNumber :=
  match parseIntExact (trim p) with
  | some v => JsNumber.ofInt v
  | none => .finite 0

/-- The digit 2 followed by 308 zeros: a decimal numeral of 309 digits, above the largest
double. -/
def overflowingPiece : Str :=
  "20000000000000000000000000000000000000000000000000000000000000000000000000000000".toList ++
      "00000000000000000000000000000000000000000000000000000000000000000000000000000000".toList ++
      "00000000000000000000000000000000000000000000000000000000000000000000000000000000".toList ++
      "000000000000000000000000000000000000000000000000000000000000000000000".toList

/-- The artistId normalisation of the create handler (server.js 170); `none` when the
expression throws (a non-zero number has no `split`). -/
def createArtistIdField (v : JsonField Str) : Option (List Str) :=
  match v with
  | .array l => some l
  | .absent => some []
  | .text s => some (if s ≠ [] then splitTrimFilter s else [])
  | .number n => if n ≠ 0 then none else some []

/-- The trainingCount normalisation of the create handler (server.js 171). -/
def createTrainingCountField (v : JsonField Count) : Option (List Count) :=
  match v with
  | .array l => some l
  | .absent => some [.num 0]
  | .text s => some (if s ≠ [] then parseCounts s else [.num 0])
  | .number n => if n ≠ 0 then none else some [.num 0]

/-- The artistId normalisation of the update handler (server.js 192). -/
def updateArtistIdField (v : JsonField Str) : Option (List Str) :=
  match v with
  | .array l => some l
  | .absent => some []
  | .text s => some (if s ≠ [] then splitTrimFilter s else [])
  | .number n => if n ≠ 0 then none else some []

/-- The trainingCount normalisation of the update handler (server.js 193). -/
def updateTrainingCountField (v : JsonField Count) : Option (List Count) :=
  match v with
  | .array l => some l
  | .absent => some [.num 0]
  | .text s => some (if s ≠ [] then parseCounts s else [.num 0])
  | .number n => if n ≠ 0 then none else some [.num 0]

/-- The `newArtistId` of saveArtistChanges (script.js 550). -/
def saveArtistChanges_newArtistId (value : Str) : List Str := splitTrimFilter value

/-- The `newTrainingCount` of saveArtistChanges (script.js 551). -/
def saveArtistChanges_newTrainingCount (value : Str) : List Count := parseCounts value

/-- The `newTrainingCount` of createArtist (script.js 610-611). -/
def createArtist_newTrainingCount (newTrainingCountInput : Str) : List Count :=
  if newTrainingCountInput ≠ [] then parseCounts newTrainingCountInput else [.num 0]

/-! ## The create and update handlers (server.js 165-201) -/

/-- A JSON request body sent to POST /api/artists or PUT /api/artists/:id. -/
structure Draft where
  id : Option Int
  name : Option Str
  artistId : JsonField Str
  trainingCount : JsonField Count
  tags : JsonField Str
  triggerWords : JsonField Str
  sampleImages : JsonField Str
  styleDescription : Option Str
  createTime : Option Str
  previewImage : Option Str

/-- A record as the server stores and returns it. -/
structure StoredArtist where
  id : Int
  name : Str
  artistId : JsonField Str
  trainingCount : JsonField Count
  tags : JsonField Str
  triggerWords : JsonField Str
  sampleImages : JsonField Str
  styleDescription : Option Str
  createTime : Str
  previewImage : Str
deriving DecidableEq

/-- `newArtist.sampleImages || []` (server.js 169): a falsy value becomes the empty array, any
other value stays. -/
def sampleImagesOrEmpty (v : JsonField Str) : JsonField Str :=
  match v with
  | .absent => .array []
  | .text s => if s ≠ [] then .text s else .array []
  | .number n => if n ≠ 0 then .number n else .array []
  | .array l => .array l

/-- The record built by POST /api/artists (server.js 166-176) from the request body, the
generated id and today's date; `none` when the handler throws before answering (a numeric
artistId or trainingCount, or no name for the file name). -/
def createRecord (today : Str) (newId : Int) (draft : Draft) : Option StoredArtist :=
  match createArtistIdField draft.artistId, createTrainingCountField draft.trainingCount,
    draft.name with
  | some ids, some counts, some name =>
    some
      { id := newId
        name := name
        artistId := .array ids
        trainingCount := .array counts
        tags := draft.tags
        triggerWords := draft.triggerWords
        sampleImages := sampleImagesOrEmpty draft.sampleImages
        styleDescription := draft.styleDescription
        createTime :=
          match draft.createTime with
          | some t => if t ≠ [] then t else today
          | none => today
        previewImage :=
          match draft.previewImage with
          | some p => if p ≠ [] then p else "/images/placeholder-artist.png".toList
          | none => "/images/placeholder-artist.png".toList }
  | _, _, _ => none

/-- `{ ...stored, ...draft }` on one field: the draft's value when the key is present. -/
def spreadField {α : Type} (stored draft : JsonField α) : JsonField α :=
  match draft with
  | .absent => stored
  | v => v

/-- The merged record `{ ...artists[index], ...updatedArtistData, id: artistId }` of
PUT /api/artists/:id (server.js 192-195); `none` when the normalisation throws. -/
def updateRecord (stored : StoredArtist) (draft : Draft) : Option StoredArtist :=
  match updateArtistIdField draft.artistId, updateTrainingCountField draft.trainingCount with
  | some ids, some counts =>
    some
      { id := stored.id
        name := draft.name.getD stored.name
        artistId := .array ids
        trainingCount := .array counts
        tags := spreadField stored.tags draft.tags
        triggerWords := spreadField stored.triggerWords draft.triggerWords
        sampleImages := spreadField stored.sampleImages draft.sampleImages
        styleDescription :=
          match draft.styleDescription with
          | some d => some d
          | none => stored.styleDescription
        createTime := draft.createTime.getD stored.createTime
        previewImage := draft.previewImage.getD stored.previewImage }
  | _, _ => none

/-- The answer of PUT /api/artists/:id. -/
inductive PutResponse where
  | notFound
  | failed
  | ok (artist : StoredArtist)
deriving DecidableEq

/-- The update handler on the records read from the store (server.js 184-200). -/
def putArtist (artists : List StoredArtist) (artistId : Int) (draft : Draft) : PutResponse :=
  match artists.find? (fun a => decide (a.id = artistId)) with
  | some stored =>
    match updateRecord stored draft with
    | some merged => .ok merged
    | none => .failed
  | none => .notFound

/-- Whether a field holds a sequence. -/
def JsonField.isArray {α : Type} (v : JsonField α) : Bool :=
  match v with
  | .array _ => true
  | _ => false

/-- A request body with only a name and an artistId array, used in examples. -/
def baseDraft : Draft :=
  { id := none, name := some "Foo".toList, artistId := .array ["f1".toList],
    trainingCount := .absent, tags := .absent, triggerWords := .absent, sampleImages := .absent,
    styleDescription := none, createTime := none, previewImage := none }

/-- A stored record, used in examples. -/
def baseStored : StoredArtist :=
  { id := 5, name := "Foo".toList, artistId := .array ["f1".toList],
    trainingCount := .array [.num 100, .num 50], tags := .array [], triggerWords := .array [],
    sampleImages := .array [], styleDescription := none, createTime := "2024-01-01".toList,
    previewImage := "/images/placeholder-artist.png".toList }

/-- The `tags` of the draft built by saveArtistChanges (script.js 559). -/
def saveArtistChanges_tags (value : Str) : List Str := splitTrimFilter value

/-- The `triggerWords` of the draft built by saveArtistChanges (script.js 560). -/
def saveArtistChanges_triggerWords (value : Str) : List Str := splitTrimFilter value

/-- The `newTags` of createArtist (script.js 613). -/
def createArtist_newTags (value : Str) : List Str := splitTrimFilter value

/-- The `newTriggerWords` of createArtist (script.js 614). -/
def createArtist_newTriggerWords (value : Str) : List Str := splitTrimFilter value

/-! ## The record store: one JSON document per record (server.js 36-81) -/

/-- What a file of the images directory holds: a record as JSON, or anything else (an image, or
text that does not parse). -/
inductive FileContent where
  | artist (a : StoredArtist)
  | other
deriving DecidableEq

/-- A file of the images directory. -/
structure File where
  name : Str
  content : FileContent
deriving DecidableEq

/-- The files of the images directory. -/
abbrev Directory := List File

/-- `fs.readdirSync(IMAGES_DIR)`: the files, listed sorted by name. -/
def readdirSync (dir : Directory) : List File :=
  dir.insertionSort (fun f g => strLe f.name g.name = true)

/-- `s.startsWith(searchString)`. -/
def startsWith (s searchString : Str) : Bool := searchString.isPrefixOf s

/-- `s.endsWith(searchString)`. -/
def endsWith (s searchString : Str) : Bool := searchString.isSuffixOf s

/-- The text of a record id inside a template literal: its decimal digits. -/
def idString (id : Int) : Str :=
  match id with
  | Int.ofNat n => Nat.toDigits 10 n
  | Int.negSucc n => '-' :: Nat.toDigits 10 (n + 1)

/-- `readArtistsData` (server.js 36-52): the records of all files named `*.json` that parse. -/
def readArtistsData (dir : Directory) : List StoredArtist :=
  (readdirSync dir).filterMap fun file =>
    if endsWith file.name ".json".toList then
      match file.content with
      | .artist a => some a
      | .other => none
    else none

/-- `name.replace(/[\\/:*?"<>|]/g, '_')` (server.js 57). -/
def safeArtistNameOf (name : Str) : Str :=
  name.map fun c => if c ∈ ['\\', '/', ':', '*', '?', '"', '<', '>', '|'] then '_' else c

/-- `fs.writeFileSync`: replace the content of the file of that name, or add the file. -/
def writeFileSync (dir : Directory) (name : Str) (content : FileContent) : Directory :=
  if dir.any (fun f => decide (f.name = name)) then
    dir.map (fun f => if f.name = name then { f with content := content } else f)
  else dir ++ [{ name := name, content := content }]

/-- `writeArtistData` (server.js 56-70): remove the files that end in the id and `.json` and do
not start with the safe name, then write the document. -/
def writeArtistData (dir : Directory) (artist : StoredArtist) : Directory :=
  let safeArtistName := safeArtistNameOf artist.name
  let filename := safeArtistName ++ "-".toList ++ idString artist.id ++ ".json".toList
  let remaining := dir.filter fun f =>
    !(endsWith f.name (idString artist.id ++ ".json".toList) && !startsWith f.name safeArtistName)
  writeFileSync remaining filename (.artist artist)

/-- `deleteArtistJson` (server.js 73-81): remove the first file of the listing that ends in
the id and `.json`. -/
def deleteArtistJson (dir : Directory) (artistId : Int) : Directory :=
  match (readdirSync dir).find?
      (fun f => endsWith f.name (idString artistId ++ ".json".toList)) with
  | some artistFile => dir.filter (fun f => decide (f.name ≠ artistFile.name))
  | none => dir

/-- POST /api/artists with its write to the store (server.js 165-180). -/
def postArtistHandler (dir : Directory) (today : Str) (newId : Int) (draft : Draft) :
    Option StoredArtist × Directory :=
  match createRecord today newId draft with
  | some newArtist => (some newArtist, writeArtistData dir newArtist)
  | none => (none, dir)

/-- PUT /api/artists/:id with its read and write of the store (server.js 183-201). -/
def putArtistHandler (dir : Directory) (artistId : Int) (draft : Draft) :
    PutResponse × Directory :=
  match putArtist (readArtistsData dir) artistId draft with
  | .ok merged => (.ok merged, writeArtistData dir merged)
  | .failed => (.failed, dir)
  | .notFound => (.notFound, dir)

/-! ## Deleting records and images (server.js 204-279) -/

/-- POSIX `path.basename(p)`: the last run of characters other than '/', trailing slashes
ignored. -/
def basename (p : Str) : Str :=
  ((p.rdropWhile (fun c => decide (c = '/'))).reverse.takeWhile
    (fun c => decide (c ≠ '/'))).reverse

/-- The array `imagesToDelete` of the delete handler (server.js 214-222); `none` when a bare
non-empty sampleImages value has no `forEach` and the handler throws. -/
def imagesToDelete (artistToDelete : StoredArtist) : Option (List Str) :=
  let preview :=
    if artistToDelete.previewImage ≠ [] ∧
        artistToDelete.previewImage ≠ "/images/placeholder-artist.png".toList then
      [artistToDelete.previewImage]
    else []
  match artistToDelete.sampleImages with
  | .array l =>
    some (preview ++
      l.filter (fun img => decide (img ≠ [] ∧ img ≠ "/images/placeholder-sample.png".toList)))
  | .absent => some preview
  | .text s => if s ≠ [] then none else some preview
  | .number n => if n ≠ 0 then none else some preview

/-- The effect of the `imagesToDelete.forEach` loop (server.js 224-235): a file is removed when
it is the base name of one of the references and that name does not start with
`placeholder-`. -/
def unlinkImages (dir : Directory) (refs : List Str) : Directory :=
  dir.filter fun f =>
    !(refs.any fun imgPath =>
        decide (f.name = basename imgPath) && !startsWith (basename imgPath) "placeholder-".toList)

/-- The answer of DELETE /api/artists/:id. -/
inductive DeleteResponse where
  | notFound
  | failed
  | noContent
deriving DecidableEq

/-- DELETE /api/artists/:id (server.js 204-239), with the directory it leaves. -/
def deleteArtistHandler (dir : Directory) (artistId : Int) : DeleteResponse × Directory :=
  match (readArtistsData dir).find? (fun a => decide (a.id = artistId)) with
  | none => (.notFound, dir)
  | some artistToDelete =>
    match imagesToDelete artistToDelete with
    | none => (.failed, dir)
    | some refs => (.noContent, unlinkImages (deleteArtistJson dir artistId) refs)

/-- The answer of POST /api/delete-image. -/
inductive DeleteImageResponse where
  | badRequest
  | forbidden
  | failed
  | notFound
  | ok
deriving DecidableEq

/-- POST /api/delete-image (server.js 253-279), with the directory it leaves. The base name
`..` resolves outside the images directory and is forbidden; the base names "" and "." resolve
to the directory itself, which exists and cannot be unlinked. -/
def deleteImageHandler (dir : Directory) (imagePath : Str) : DeleteImageResponse × Directory :=
  if imagePath = [] then (.badRequest, dir)
  else
    let filename := basename imagePath
    if filename = "..".toList ∨ startsWith filename "placeholder-".toList = true then
      (.forbidden, dir)
    else if filename = [] ∨ filename = ".".toList then (.failed, dir)
    else if dir.any (fun f => decide (f.name = filename)) then
      (.ok, dir.filter (fun f => decide (f.name ≠ filename)))
    else (.notFound, dir)

/-- Whether a file is one of the two shared placeholder images. -/
def isPlaceholderFile (f : File) : Prop :=
  f.name = "placeholder-artist.png".toList ∨ f.name = "placeholder-sample.png".toList

/-- A stored record with an uploaded preview image whose sample images refer to the two
placeholders. -/
def fooStored : StoredArtist :=
  { baseStored with
    previewImage := "/images/Foo-preview-1.png".toList
    sampleImages := JsonField.array
      ["/images/placeholder-sample.png".toList, "/images/placeholder-artist.png".toList] }

/-- A store holding the two placeholder images, an uploaded image and the document of one
record. -/
def sampleDirectory : Directory :=
  [{ name := "placeholder-artist.png".toList, content := FileContent.other },
   { name := "placeholder-sample.png".toList, content := FileContent.other },
   { name := "Foo-preview-1.png".toList, content := FileContent.other },
   { name := "Foo-5.json".toList, content := FileContent.artist fooStored }]

/-! ## Client mutations of sample images (script.js 686-773) -/

/-- Replace, in place, the first record that has the given id: the effect on `artistsData` of
mutating the object returned by `artistsData.find(a => a.id === id)`. -/
def mutateFound (artistsData : List Artist) (id : Int) (f : Artist → Artist) : List Artist :=
  match artistsData with
  | [] => []
  | a :: rest => if a.id = id then f a :: rest else a :: mutateFound rest id f

/-- The selection after a record of `artistsData` was mutated in place and the store request
failed: when `currentArtist` is that very object (it was selected from the list), it shows the
mutation too; when it is another object (the answer of an earlier store request), it is
untouched. -/
def selectionAfterMutation (sameObject : Bool) (currentArtist : Option Artist)
    (mutated : Artist) : Option Artist :=
  match currentArtist with
  | some cur => if sameObject then some mutated else some cur
  | none => none

/-- The state after addSampleImages (script.js 686-731), given whether `currentArtist` is the
very object that `artistsData.find` returns, the results of the uploads (a path, or `none` for a
failed upload) and the answer of saveArtistDataToBackend (`none` when the store request
failed). -/
def addSampleImages (st : ViewState) (sameObject : Bool) (uploadedPaths : List (Option Str))
    (saveArtistDataToBackend : Artist → Option Artist) : ViewState :=
  match st.currentArtist with
  | none => st
  | some currentArtist =>
    if uploadedPaths.length = 0 then st
    else
      let validPaths := (uploadedPaths.filterMap id).filter (fun p => p ≠ [])
      if validPaths.length = 0 then st
      else
        match st.artistsData.find? (fun a => decide (a.id = currentArtist.id)) with
        | none => st
        | some artistToUpdate =>
          let mutated : Artist :=
            { artistToUpdate with
              sampleImages := some (artistToUpdate.sampleImages.getD [] ++ validPaths) }
          let artistsData := mutateFound st.artistsData currentArtist.id (fun _ => mutated)
          match saveArtistDataToBackend mutated with
          | some result => { st with artistsData := artistsData, currentArtist := some result }
          | none =>
            { st with
              artistsData := artistsData
              currentArtist := selectionAfterMutation sameObject st.currentArtist mutated }

/-- The state after deleteSampleImage (script.js 734-773), given whether `currentArtist` is the
very object that `artistsData.find` returns, the answer to the confirm dialog and the answer of
saveArtistDataToBackend; the request to delete the image file does not touch the state. -/
def deleteSampleImage (st : ViewState) (sameObject : Bool) (artistId : Int) (imageIndex : Int)
    (confirmed : Bool) (saveArtistDataToBackend : Artist → Option Artist) : ViewState :=
  match st.artistsData.find? (fun a => decide (a.id = artistId)) with
  | none => st
  | some artist =>
    if confirmed then
      match artist.sampleImages with
      | none => st
      | some images =>
        if imageIndex < 0 ∨ imageIndex ≥ images.length then st
        else
          let mutated : Artist :=
            { artist with sampleImages := some (images.eraseIdx imageIndex.toNat) }
          let artistsData := mutateFound st.artistsData artistId (fun _ => mutated)
          match saveArtistDataToBackend mutated with
          | some result => { st with artistsData := artistsData, currentArtist := some result }
          | none =>
            { st with
              artistsData := artistsData
              currentArtist := selectionAfterMutation sameObject st.currentArtist mutated }
    else st

/-- A loaded record with the given sample images. -/
def withSamples (id : Int) (images : List Str) : Artist :=
  { id := id, name := "Foo".toList, artistId := some ["f1".toList],
    trainingCount := .array [.num 1], triggerWords := some [], tags := some [],
    styleDescription := none, createTime := "2024-01-01".toList,
    previewImage := some "/images/placeholder-artist.png".toList, sampleImages := some images }

/-- The view state with one loaded record, selected. -/
def oneSelected (a : Artist) : ViewState :=
  { artistsData := [a], currentArtist := some a, sortBy := "count".toList,
    currentSearchTerm := [] }

/-! ## Stores reached through the handlers, used in the concrete instances -/

/-- The store after POST /api/artists of a record named "FooBar" into an empty directory, the
generated id being 5. -/
def storeAfterCreate : Directory :=
  (postArtistHandler [] "2026-01-01".toList 5 { baseDraft with name := some "FooBar".toList }).2

/-- The store after a following PUT /api/artists/5 that renames the record to "Foo". -/
def storeAfterRename : Directory :=
  (putArtistHandler storeAfterCreate 5 { baseDraft with name := some "Foo".toList }).2

/-- A store with the documents of two records whose ids are 15 and 5. -/
def storeWithSuffixIds : Directory :=
  [{ name := "Bar-15.json".toList,
     content := FileContent.artist { baseStored with id := 15, name := "Bar".toList } },
   { name := "Foo-5.json".toList, content := FileContent.artist baseStored }]


/-! ## Ordering and sorting -/

theorem Char_toNat_inj {a b : Char} (h : a.toNat = b.toNat) : a = b := by
  rw [← Char.ofNat_toNat a, ← Char.ofNat_toNat b, h]

theorem strLe_total (a b : Str) : strLe a b = true ∨ strLe b a = true := by
  induction a generalizing b with
  | nil => left; simp [strLe]
  | cons x xs ih =>
    cases b with
    | nil => right; simp [strLe]
    | cons y ys =>
      simp only [strLe]
      rcases Nat.lt_trichotomy x.toNat y.toNat with h | h | h
      · left; simp [h]
      · have h1 : ¬ x.toNat < y.toNat := by omega
        have h2 : ¬ y.toNat < x.toNat := by omega
        simp only [h1, h2, if_false]
        exact ih ys
      · right; simp [h]

theorem strLe_antisymm (a b : Str) (h1 : strLe a b = true) (h2 : strLe b a = true) : a = b := by
  induction a generalizing b with
  | nil =>
    cases b with
    | nil => rfl
    | cons y ys => simp [strLe] at h2
  | cons x xs ih =>
    cases b with
    | nil => simp [strLe] at h1
    | cons y ys =>
      simp only [strLe] at h1 h2
      by_cases hxy : x.toNat < y.toNat
      · have : ¬ y.toNat < x.toNat := by omega
        simp [hxy, this] at h2
      · by_cases hyx : y.toNat < x.toNat
        · simp [hxy, hyx] at h1
        · simp only [hxy, hyx, if_false] at h1 h2
          have hc : x = y := Char_toNat_inj (by omega)
          rw [hc, ih ys h1 h2]

theorem strLe_trans (a b c : Str) (h1 : strLe a b = true) (h2 : strLe b c = true) :
    strLe a c = true := by
  induction a generalizing b c with
  | nil => simp [strLe]
  | cons x xs ih =>
    cases b with
    | nil => simp [strLe] at h1
    | cons y ys =>
      cases c with
      | nil => simp [strLe] at h2
      | cons z zs =>
        simp only [strLe] at h1 h2 ⊢
        by_cases hxy : x.toNat < y.toNat
        · by_cases hyz : y.toNat < z.toNat
          · have : x.toNat < z.toNat := by omega
            simp [this]
          · by_cases hzy : z.toNat < y.toNat
            · simp [hyz, hzy] at h2
            · have : x.toNat < z.toNat := by omega
              simp [this]
        · by_cases hyx : y.toNat < x.toNat
          · simp [hxy, hyx] at h1
          · simp only [hxy, hyx, if_false] at h1
            by_cases hyz : y.toNat < z.toNat
            · have : x.toNat < z.toNat := by omega
              simp [this]
            · by_cases hzy : z.toNat < y.toNat
              · simp [hyz, hzy] at h2
              · simp only [hyz, hzy, if_false] at h2
                have e1 : ¬ x.toNat < z.toNat := by omega
                have e2 : ¬ z.toNat < x.toNat := by omega
                simp only [e1, e2, if_false]
                exact ih ys zs h1 h2

theorem sort_perm (l : List Str) : (sort l).Perm l := List.perm_insertionSort _ l

theorem sort_sorted (l : List Str) : (sort l).Sorted (fun a b => strLe a b = true) := by
  haveI : IsTotal Str (fun a b => strLe a b = true) := ⟨strLe_total⟩
  haveI : IsTrans Str (fun a b => strLe a b = true) := ⟨strLe_trans⟩
  exact List.sorted_insertionSort _ l

theorem sort_eq_of_perm {l₁ l₂ : List Str} (h : l₁.Perm l₂) : sort l₁ = sort l₂ := by
  haveI : IsAntisymm Str (fun a b => strLe a b = true) := ⟨strLe_antisymm⟩
  exact List.eq_of_perm_of_sorted ((sort_perm l₁).trans (h.trans (sort_perm l₂).symm))
    (sort_sorted l₁) (sort_sorted l₂)

theorem sortedIdString_eq_of_perm (host : Host) {a b : List Str}
    (h : (a.map host.toLowerCase).Perm (b.map host.toLowerCase)) :
    sortedIdString host a = sortedIdString host b := by
  unfold sortedIdString
  rw [sort_eq_of_perm h]


/-! ## split and join -/

theorem split_ne_nil (s : Str) : split s ≠ [] := by
  cases s with
  | nil => simp [split]
  | cons c cs =>
    simp only [split]
    split_ifs
    · simp
    · cases split cs <;> simp

theorem split_cons_of_ne {c : Char} (h : c ≠ ',') (cs : Str) :
    ∃ p ps, split cs = p :: ps ∧ split (c :: cs) = (c :: p) :: ps := by
  rcases hs : split cs with _ | ⟨p, ps⟩
  · exact absurd hs (split_ne_nil cs)
  · exact ⟨p, ps, rfl, by simp [split, h, hs]⟩

theorem split_append_comma (a b : Str) : split (a ++ ',' :: b) = split a ++ split b := by
  induction a with
  | nil => simp [split]
  | cons c cs ih =>
    by_cases hc : c = ','
    · simp [split, hc, ih]
    · obtain ⟨p, ps, hs, hcs⟩ := split_cons_of_ne hc cs
      rw [hcs]
      obtain ⟨q, qs, hs2, hcs2⟩ := split_cons_of_ne hc (cs ++ ',' :: b)
      rw [List.cons_append, hcs2]
      rw [ih, hs] at hs2
      simp at hs2
      simp [hs2.1, hs2.2]

theorem split_of_not_mem {s : Str} (h : ',' ∉ s) : split s = [s] := by
  induction s with
  | nil => rfl
  | cons c cs ih =>
    simp only [List.mem_cons, not_or] at h
    have hc : c ≠ ',' := fun e => h.1 e.symm
    simp [split, hc, ih h.2]

theorem not_mem_of_mem_split {s p : Str} (h : p ∈ split s) : ',' ∉ p := by
  induction s generalizing p with
  | nil => simp [split] at h; simp [h]
  | cons c cs ih =>
    by_cases hc : c = ','
    · simp only [split, hc, if_true, List.mem_cons] at h
      rcases h with h | h
      · simp [h]
      · exact ih h
    · obtain ⟨q, qs, hs, hcs⟩ := split_cons_of_ne hc cs
      rw [hcs] at h
      simp only [List.mem_cons] at h
      rcases h with h | h
      · subst h
        have hq : ',' ∉ q := ih (by rw [hs]; simp)
        simp only [List.mem_cons, not_or]
        exact ⟨fun e => hc e.symm, hq⟩
      · exact ih (by rw [hs]; simp [h])

theorem split_join_comma {l : List Str} (hne : l ≠ []) (hl : ∀ x ∈ l, ',' ∉ x) :
    split (join [','] l) = l := by
  induction l with
  | nil => exact absurd rfl hne
  | cons x xs ih =>
    cases xs with
    | nil => simpa [join] using split_of_not_mem (hl x (by simp))
    | cons y ys =>
      simp only [join, List.append_assoc, List.singleton_append]
      rw [split_append_comma, split_of_not_mem (hl x (by simp)),
        ih (by simp) (fun z hz => hl z (List.mem_cons_of_mem _ hz))]
      rfl

theorem join_comma_ne_nil {l : List Str} (hne : l ≠ []) (hl : ∀ x ∈ l, x ≠ []) :
    join [','] l ≠ [] := by
  cases l with
  | nil => exact absurd rfl hne
  | cons x xs =>
    cases xs with
    | nil => simpa [join] using hl x (by simp)
    | cons y ys => simp [join]

theorem join_comma_inj {l₁ l₂ : List Str} (h₁ : ∀ x ∈ l₁, ',' ∉ x) (h₂ : ∀ x ∈ l₂, ',' ∉ x)
    (hne : l₁ ≠ []) (hne' : ∀ x ∈ l₁, x ≠ []) (h : join [','] l₁ = join [','] l₂) :
    l₁ = l₂ := by
  by_cases h2 : l₂ = []
  · subst h2
    exact absurd h (join_comma_ne_nil hne hne')
  · rw [← split_join_comma hne h₁, ← split_join_comma h2 h₂, h]


/-! ## Case folding and trimming -/

theorem trim_sublist (s : Str) : (trim s).Sublist s :=
  (List.rdropWhile_prefix isWhiteSpace (s.dropWhile isWhiteSpace)).sublist.trans
    (List.dropWhile_suffix isWhiteSpace).sublist

theorem mem_splitTrimFilter {s x : Str} (h : x ∈ splitTrimFilter s) : x ≠ [] ∧ ',' ∉ x := by
  simp only [splitTrimFilter, List.mem_filter, List.mem_map, decide_eq_true_eq] at h
  obtain ⟨⟨p, hp, rfl⟩, hne⟩ := h
  exact ⟨hne, fun hc => not_mem_of_mem_split hp ((trim_sublist p).subset hc)⟩

theorem mem_newArtistIdOf {s x : Str} (h : x ∈ newArtistIdOf s) : x ≠ [] ∧ ',' ∉ x := by
  unfold newArtistIdOf at h
  split_ifs at h
  · simp at h
  · exact mem_splitTrimFilter h

theorem rdropWhile_cons {α : Type} (p : α → Bool) (a : α) (l : List α) :
    (a :: l).rdropWhile p =
      if ((l.rdropWhile p).isEmpty && p a) = true then [] else a :: l.rdropWhile p := by
  induction l using List.reverseRecOn with
  | nil => by_cases h : p a = true <;> simp [List.rdropWhile_singleton, h]
  | append_singleton l x ih =>
    rw [← List.cons_append]
    by_cases hx : p x = true
    · rw [List.rdropWhile_concat_pos _ _ _ hx, List.rdropWhile_concat_pos _ _ _ hx, ih]
    · rw [List.rdropWhile_concat_neg _ _ _ hx, List.rdropWhile_concat_neg _ _ _ hx]
      simp

theorem dropWhile_rdropWhile_comm {α : Type} (p : α → Bool) (l : List α) :
    (l.rdropWhile p).dropWhile p = (l.dropWhile p).rdropWhile p := by
  induction l with
  | nil => simp
  | cons a l ih =>
    rw [rdropWhile_cons]
    by_cases ha : p a = true
    · rw [List.dropWhile_cons_of_pos ha, ← ih]
      rcases hl : l.rdropWhile p with _ | ⟨b, bs⟩
      · simp [ha]
      · simp [ha]
    · rw [List.dropWhile_cons_of_neg ha]
      simp only [ha, Bool.and_false, Bool.false_eq_true, if_false]
      rw [List.dropWhile_cons_of_neg ha, rdropWhile_cons]
      simp [ha]

theorem trim_eq_dropWhile_rdropWhile (s : Str) :
    trim s = (s.rdropWhile isWhiteSpace).dropWhile isWhiteSpace :=
  (dropWhile_rdropWhile_comm _ s).symm

theorem trim_trim (s : Str) : trim (trim s) = trim s := by
  unfold trim
  rw [← dropWhile_rdropWhile_comm _ (List.rdropWhile _ _), List.rdropWhile_idempotent,
    ← dropWhile_rdropWhile_comm, List.dropWhile_idempotent]

theorem trim_eq_nil_of_all {s : Str} (h : ∀ c ∈ s, isWhiteSpace c = true) : trim s = [] := by
  unfold trim
  rw [List.dropWhile_eq_nil_iff.mpr h]
  rfl


/-! ## Tokens -/

theorem isWhiteSpace_ne_comma {c : Char} (h : isWhiteSpace c = true) : c ≠ ',' := by
  rintro rfl
  revert h
  decide

theorem split_dropWhile (s : Str) :
    (split (s.dropWhile isWhiteSpace)).map (List.dropWhile isWhiteSpace)
      = (split s).map (List.dropWhile isWhiteSpace) := by
  induction s with
  | nil => rfl
  | cons c cs ih =>
    by_cases hc : isWhiteSpace c = true
    · obtain ⟨p, ps, hs, hcs⟩ := split_cons_of_ne (isWhiteSpace_ne_comma hc) cs
      rw [List.dropWhile_cons_of_pos hc, ih, hcs, hs]
      simp [List.dropWhile_cons_of_pos hc]
    · rw [List.dropWhile_cons_of_neg hc]

theorem split_rdropWhile (s : Str) :
    (split (s.rdropWhile isWhiteSpace)).map (List.rdropWhile isWhiteSpace)
      = (split s).map (List.rdropWhile isWhiteSpace) := by
  induction s with
  | nil => rfl
  | cons c cs ih =>
    rw [rdropWhile_cons]
    by_cases hc : c = ','
    · have hw : isWhiteSpace c = false := by subst hc; decide
      subst hc
      simp only [hw, Bool.and_false, Bool.false_eq_true, if_false]
      simp only [split, if_true, List.map_cons, ih]
    · by_cases hall : ((cs.rdropWhile isWhiteSpace).isEmpty && isWhiteSpace c) = true
      · rw [if_pos hall]
        simp only [Bool.and_eq_true, List.isEmpty_iff] at hall
        have hcs : ∀ x ∈ cs, isWhiteSpace x = true := List.rdropWhile_eq_nil_iff.mp hall.1
        have hnc : ',' ∉ c :: cs := by
          intro hm
          rcases List.mem_cons.mp hm with h | h
          · exact hc h.symm
          · exact isWhiteSpace_ne_comma (hcs _ h) rfl
        rw [split_of_not_mem hnc]
        have : (c :: cs).rdropWhile isWhiteSpace = [] := by
          rw [List.rdropWhile_eq_nil_iff]
          intro x hx
          rcases List.mem_cons.mp hx with h | h
          · exact h ▸ hall.2
          · exact hcs x h
        simp [split, this]
      · rw [if_neg hall]
        obtain ⟨p, ps, hs, hcs⟩ := split_cons_of_ne hc cs
        obtain ⟨q, qs, hs', hcs'⟩ := split_cons_of_ne hc (cs.rdropWhile isWhiteSpace)
        rw [hcs, hcs']
        rw [hs, hs'] at ih
        simp only [List.map_cons, List.cons.injEq] at ih ⊢
        refine ⟨?_, ih.2⟩
        rw [rdropWhile_cons, rdropWhile_cons, ih.1]

theorem split_trim (s : Str) : (split (trim s)).map trim = (split s).map trim := by
  have h1 : ∀ l : List Str, l.map trim
      = (l.map (List.rdropWhile isWhiteSpace)).map (List.dropWhile isWhiteSpace) := by
    intro l
    rw [List.map_map]
    exact List.map_congr_left (fun x _ => trim_eq_dropWhile_rdropWhile x)
  have h2 : ∀ l : List Str, l.map trim
      = (l.map (List.dropWhile isWhiteSpace)).map (List.rdropWhile isWhiteSpace) := by
    intro l
    rw [List.map_map]
    rfl
  calc (split (trim s)).map trim
      = ((split (trim s)).map (List.rdropWhile isWhiteSpace)).map
          (List.dropWhile isWhiteSpace) := h1 _
    _ = ((split (s.dropWhile isWhiteSpace)).map (List.rdropWhile isWhiteSpace)).map
          (List.dropWhile isWhiteSpace) := by
        unfold trim
        rw [split_rdropWhile]
    _ = (split (s.dropWhile isWhiteSpace)).map trim := (h1 _).symm
    _ = ((split (s.dropWhile isWhiteSpace)).map (List.dropWhile isWhiteSpace)).map
          (List.rdropWhile isWhiteSpace) := h2 _
    _ = ((split s).map (List.dropWhile isWhiteSpace)).map
          (List.rdropWhile isWhiteSpace) := by rw [split_dropWhile]
    _ = (split s).map trim := (h2 _).symm

theorem splitTrimFilter_trim (s : Str) : splitTrimFilter (trim s) = splitTrimFilter s := by
  unfold splitTrimFilter
  rw [split_trim]

theorem splitTrimFilter_append_comma (a b : Str) :
    splitTrimFilter (a ++ ',' :: b) = splitTrimFilter a ++ splitTrimFilter b := by
  simp [splitTrimFilter, split_append_comma]

theorem splitTrimFilter_cons_space (s : Str) : splitTrimFilter (' ' :: s) = splitTrimFilter s := by
  have h : trim (' ' :: s) = trim s := by
    unfold trim
    rw [List.dropWhile_cons_of_pos (by decide)]
  rw [← splitTrimFilter_trim, h, splitTrimFilter_trim]

theorem splitTrimFilter_join (l : List Str) :
    splitTrimFilter (join [',', ' '] l) = l.flatMap splitTrimFilter := by
  induction l with
  | nil => decide
  | cons x xs ih =>
    cases xs with
    | nil => simp [join]
    | cons y ys =>
      simp only [join, List.append_assoc, List.cons_append, List.nil_append]
      rw [splitTrimFilter_append_comma, splitTrimFilter_cons_space, ih]
      simp

theorem isToken_of_mem_splitTrimFilter {s w : Str} (h : w ∈ splitTrimFilter s) : IsToken w := by
  refine ⟨(mem_splitTrimFilter h).1, (mem_splitTrimFilter h).2, ?_⟩
  simp only [splitTrimFilter, List.mem_filter, List.mem_map] at h
  obtain ⟨⟨p, _, rfl⟩, _⟩ := h
  exact trim_trim p

theorem splitTrimFilter_of_isToken {w : Str} (h : IsToken w) : splitTrimFilter w = [w] := by
  obtain ⟨h1, h2, h3⟩ := h
  simp [splitTrimFilter, split_of_not_mem h2, h3, h1]

theorem splitTrimFilter_join_tokens {l : List Str} (h : ∀ w ∈ l, IsToken w) :
    splitTrimFilter (join [',', ' '] l) = l := by
  rw [splitTrimFilter_join]
  induction l with
  | nil => rfl
  | cons x xs ih =>
    rw [List.flatMap_cons, splitTrimFilter_of_isToken (h x (by simp)),
      ih (fun w hw => h w (List.mem_cons_of_mem _ hw))]
    rfl


/-! ## First-occurrence deduplication -/

theorem foldl_setAdd (acc xs : List Str) :
    xs.foldl setAdd acc = acc ++ (firstOccurrences xs).filter (fun y => y ∉ acc) := by
  induction xs generalizing acc with
  | nil => simp [firstOccurrences]
  | cons x xs ih =>
    rw [List.foldl_cons, ih]
    by_cases hx : x ∈ acc
    · simp only [setAdd, hx, if_true, firstOccurrences, List.filter_cons, decide_not,
        decide_True, Bool.not_true, Bool.false_eq_true, if_false, List.filter_filter]
      congr 1
      apply List.filter_congr
      intro y _
      by_cases hy : y ∈ acc
      · simp [hy]
      · have : y ≠ x := fun e => hy (e ▸ hx)
        simp [hy, this]
    · simp only [setAdd, hx, if_false, firstOccurrences, List.filter_cons, decide_not,
        decide_False, Bool.not_false, if_true, List.filter_filter, List.append_assoc,
        List.singleton_append]
      congr 2
      apply List.filter_congr
      intro y _
      by_cases hy : y ∈ acc
      · simp [hy]
      · by_cases hyx : y = x
        · simp [hyx]
        · simp [hy, hyx]

theorem newSet_eq_firstOccurrences (xs : List Str) : newSet xs = firstOccurrences xs := by
  unfold newSet
  rw [foldl_setAdd]
  simp

theorem mem_firstOccurrences {x : Str} {l : List Str} : x ∈ firstOccurrences l ↔ x ∈ l := by
  induction l with
  | nil => simp [firstOccurrences]
  | cons a l ih =>
    simp only [firstOccurrences, List.mem_cons, List.mem_filter, ih, decide_eq_true_eq]
    constructor
    · rintro (h | ⟨h, _⟩)
      · exact Or.inl h
      · exact Or.inr h
    · rintro (h | h)
      · exact Or.inl h
      · by_cases hx : x = a
        · exact Or.inl hx
        · exact Or.inr ⟨h, hx⟩

theorem nodup_firstOccurrences (l : List Str) : (firstOccurrences l).Nodup := by
  induction l with
  | nil => simp [firstOccurrences]
  | cons a l ih =>
    simp only [firstOccurrences, List.nodup_cons, List.mem_filter, decide_eq_true_eq]
    exact ⟨fun h => h.2 rfl, ih.filter _⟩

theorem firstOccurrences_of_nodup {l : List Str} (h : l.Nodup) : firstOccurrences l = l := by
  induction l with
  | nil => rfl
  | cons a l ih =>
    rw [List.nodup_cons] at h
    simp only [firstOccurrences, ih h.2, List.cons.injEq, true_and]
    rw [List.filter_eq_self]
    intro y hy
    simp only [decide_eq_true_eq]
    exact fun e => h.1 (e ▸ hy)

theorem firstOccurrences_append (l m : List Str) :
    firstOccurrences (l ++ m)
      = firstOccurrences l ++ (firstOccurrences m).filter (fun y => y ∉ l) := by
  induction l with
  | nil => simp [firstOccurrences]
  | cons a l ih =>
    rw [List.cons_append]
    simp only [firstOccurrences]
    rw [ih, List.filter_append, List.filter_filter, List.cons_append]
    congr 2
    apply List.filter_congr
    intro y _
    by_cases hya : y = a
    · simp [hya]
    · simp [hya]


/-! ## Duplicate detection: C1, C2, C3 -/

theorem isDuplicateSet_eq_true_iff (host : Host) (c : List Str) (data : List Artist) :
    isDuplicateSet host c data = true ↔
      ∃ r ∈ data, ∃ ids, r.artistId = some ids ∧
        sortedIdString host ids = sortedIdString host c := by
  unfold isDuplicateSet
  rw [List.any_eq_true]
  constructor
  · rintro ⟨r, hr, h⟩
    cases hid : r.artistId with
    | none => simp [hid] at h
    | some ids =>
      simp only [hid, decide_eq_true_eq] at h
      exact ⟨r, hr, ids, hid, h⟩
  · rintro ⟨r, hr, ids, hid, h⟩
    exact ⟨r, hr, by simp [hid, h]⟩

/-- C1 (as stated, refuted): the form input "a,a" gives the candidate ["a","a"], whose case-folded
element set equals that of the stored record ["a"], yet the duplicate check is false and creation
goes on to build and send the record. -/
theorem createArtist_same_set_not_blocked :
    sameIdSet caseInsensitiveHost ["a".toList] (newArtistIdOf "a,a".toList) ∧
    (mkArtist 1 "x".toList ["a".toList]).artistId = some ["a".toList] ∧
    isDuplicateSet caseInsensitiveHost (newArtistIdOf "a,a".toList)
      [mkArtist 1 "x".toList ["a".toList]] = false ∧
    createArtist caseInsensitiveHost "n".toList "a,a".toList [mkArtist 1 "x".toList ["a".toList]]
      = CreateOutcome.proceed "n".toList ["a".toList, "a".toList] := by
  decide

/-- C1 (amended): in every browser, whatever letters its toLowerCase folds, when some stored
record's artistId array, case-folded, is a reordering of the case-folded candidate read from the
create form (same elements with the same multiplicities), the duplicate check is true and
createArtist never reaches the point where a record is built and sent. -/
theorem createArtist_rejects_reordered_ids (host : Host) (nameInput idInput : Str)
    (artistsData : List Artist) (r : Artist) (ids : List Str) (hr : r ∈ artistsData)
    (hids : r.artistId = some ids) (hperm : caseFoldedPerm host ids (newArtistIdOf idInput)) :
    isDuplicateSet host (newArtistIdOf idInput) artistsData = true ∧
    ∀ n i, createArtist host nameInput idInput artistsData ≠ CreateOutcome.proceed n i := by
  have hdup : isDuplicateSet host (newArtistIdOf idInput) artistsData = true :=
    (isDuplicateSet_eq_true_iff host _ _).mpr
      ⟨r, hr, ids, hids, sortedIdString_eq_of_perm host hperm⟩
  refine ⟨hdup, fun n i => ?_⟩
  simp only [createArtist]
  split_ifs <;> simp

theorem createArtist_rejects_reordered_ids_witness :
    (mkArtist 1 "x".toList ["A".toList, "b".toList])
      ∈ [mkArtist 1 "x".toList ["A".toList, "b".toList]] ∧
    caseFoldedPerm caseInsensitiveHost ["A".toList, "b".toList] (newArtistIdOf "B, a".toList) ∧
    (isDuplicateSet caseInsensitiveHost (newArtistIdOf "B, a".toList)
      [mkArtist 1 "x".toList ["A".toList, "b".toList]] = true ∧
    ∀ n i, createArtist caseInsensitiveHost "n".toList "B, a".toList
      [mkArtist 1 "x".toList ["A".toList, "b".toList]] ≠ CreateOutcome.proceed n i) :=
  ⟨by simp, by unfold caseFoldedPerm; decide,
    createArtist_rejects_reordered_ids caseInsensitiveHost "n".toList "B, a".toList
      [mkArtist 1 "x".toList ["A".toList, "b".toList]]
      (mkArtist 1 "x".toList ["A".toList, "b".toList])
      ["A".toList, "b".toList] (by simp) rfl (by unfold caseFoldedPerm; decide)⟩

/-- C2 (code evaluated at the failing input): with one stored record whose artistId array is
["a,b"], the create form input "a,b" gives the candidate ["a","b"]; the two arrays have different
case-folded element sets (and different lengths), yet both join to the key "a,b", so the
duplicate check is true and creation is blocked as a duplicate. -/
theorem createArtist_comma_id_blocked :
    newArtistIdOf "a,b".toList = ["a".toList, "b".toList] ∧
    ¬ sameIdSet caseInsensitiveHost ["a,b".toList] (newArtistIdOf "a,b".toList) ∧
    (mkArtist 1 "x".toList ["a,b".toList]).artistId = some ["a,b".toList] ∧
    sortedIdString caseInsensitiveHost ["a,b".toList] = "a,b".toList ∧
    sortedIdString caseInsensitiveHost (newArtistIdOf "a,b".toList) = "a,b".toList ∧
    isDuplicateSet caseInsensitiveHost (newArtistIdOf "a,b".toList)
      [mkArtist 1 "x".toList ["a,b".toList]] = true ∧
    createArtist caseInsensitiveHost "n".toList "a,b".toList
      [mkArtist 1 "x".toList ["a,b".toList]] = CreateOutcome.duplicateSet := by
  decide

/-- C3: in every browser, whatever letters its toLowerCase folds, the duplicate check is
invariant under reordering and re-casing, of the candidate and of the stored records' artistId
arrays: if the case-folded candidates are permutations of each other and the record lists agree
position by position up to such a change of their artistId arrays, isDuplicateSet gives the same
answer. -/
theorem isDuplicateSet_invariant (host : Host) (c c' : List Str) (data data' : List Artist)
    (hc : caseFoldedPerm host c c')
    (hd : List.Forall₂ (sameIdsUpToOrderAndCase host) data data') :
    isDuplicateSet host c data = isDuplicateSet host c' data' := by
  have hkey : sortedIdString host c = sortedIdString host c' :=
    sortedIdString_eq_of_perm host hc
  unfold isDuplicateSet
  induction hd with
  | nil => rfl
  | @cons r r' l l' hrr _ ih =>
    simp only [List.any_cons, ih]
    congr 1
    unfold sameIdsUpToOrderAndCase at hrr
    cases h1 : r.artistId <;> cases h2 : r'.artistId <;> simp only [h1, h2] at hrr ⊢
    rw [sortedIdString_eq_of_perm host hrr, hkey]

theorem isDuplicateSet_invariant_witness :
    caseFoldedPerm caseInsensitiveHost ["A".toList, "b".toList] ["B".toList, "a".toList] ∧
    isDuplicateSet caseInsensitiveHost ["A".toList, "b".toList]
        [mkArtist 1 "x".toList ["b".toList, "a".toList]]
      = isDuplicateSet caseInsensitiveHost ["B".toList, "a".toList]
        [mkArtist 1 "x".toList ["A".toList, "B".toList]] :=
  ⟨by unfold caseFoldedPerm; decide,
    isDuplicateSet_invariant caseInsensitiveHost _ _ _ _ (by unfold caseFoldedPerm; decide)
      (List.Forall₂.cons
        (show caseFoldedPerm caseInsensitiveHost ["b".toList, "a".toList]
            ["A".toList, "B".toList] by
          unfold caseFoldedPerm; decide)
        List.Forall₂.nil)⟩

/-! ## Chain composition: C4, C5, C6 -/

theorem addArtistTriggerWordsToChain_of_words (artist : Artist) (chainValue : Str)
    (tw : List Str) (h : artist.triggerWords = some tw) (hne : tw ≠ []) :
    addArtistTriggerWordsToChain artist chainValue
      = join [',', ' ']
          (firstOccurrences (splitTrimFilter chainValue ++ tw.flatMap splitTrimFilter)) := by
  cases tw with
  | nil => exact absurd rfl hne
  | cons w ws =>
    simp only [addArtistTriggerWordsToChain, h]
    rw [newSet_eq_firstOccurrences, splitTrimFilter_trim, splitTrimFilter_join]

theorem addArtistTriggerWordsToChain_of_no_words (artist : Artist) (chainValue : Str)
    (h : artist.triggerWords = none ∨ artist.triggerWords = some []) :
    addArtistTriggerWordsToChain artist chainValue = chainValue := by
  rcases h with h | h <;> simp [addArtistTriggerWordsToChain, h]

theorem isToken_of_mem_combined {chainValue : Str} {tw : List Str} {w : Str}
    (h : w ∈ firstOccurrences (splitTrimFilter chainValue ++ tw.flatMap splitTrimFilter)) :
    IsToken w := by
  rw [mem_firstOccurrences, List.mem_append, List.mem_flatMap] at h
  rcases h with h | ⟨t, _, h⟩
  · exact isToken_of_mem_splitTrimFilter h
  · exact isToken_of_mem_splitTrimFilter h

theorem splitTrimFilter_addArtistTriggerWordsToChain (artist : Artist) (chainValue : Str)
    (tw : List Str) (h : artist.triggerWords = some tw) (hne : tw ≠ []) :
    splitTrimFilter (addArtistTriggerWordsToChain artist chainValue)
      = firstOccurrences (splitTrimFilter chainValue ++ tw.flatMap splitTrimFilter) := by
  rw [addArtistTriggerWordsToChain_of_words artist chainValue tw h hne]
  exact splitTrimFilter_join_tokens (fun w hw => isToken_of_mem_combined hw)

/-- C4: addArtistTriggerWordsToChain is idempotent: applying it twice with the same record leaves
the chain input holding the same string as applying it once. -/
theorem addArtistTriggerWordsToChain_idempotent (artist : Artist) (chainValue : Str) :
    addArtistTriggerWordsToChain artist (addArtistTriggerWordsToChain artist chainValue)
      = addArtistTriggerWordsToChain artist chainValue := by
  rcases htw : artist.triggerWords with _ | tw
  · rw [addArtistTriggerWordsToChain_of_no_words artist _ (Or.inl htw)]
  · by_cases hne : tw = []
    · subst hne
      rw [addArtistTriggerWordsToChain_of_no_words artist _ (Or.inr htw)]
    · rw [addArtistTriggerWordsToChain_of_words artist _ tw htw hne,
        splitTrimFilter_addArtistTriggerWordsToChain artist chainValue tw htw hne,
        addArtistTriggerWordsToChain_of_words artist chainValue tw htw hne]
      congr 1
      rw [firstOccurrences_append, firstOccurrences_of_nodup (nodup_firstOccurrences _)]
      have : (firstOccurrences (tw.flatMap splitTrimFilter)).filter
          (fun y => y ∉ firstOccurrences
            (splitTrimFilter chainValue ++ tw.flatMap splitTrimFilter)) = [] := by
        rw [List.filter_eq_nil_iff]
        intro y hy
        rw [mem_firstOccurrences] at hy
        simp only [decide_not, Bool.not_eq_true', decide_eq_false_iff_not, not_not,
          mem_firstOccurrences, List.mem_append]
        exact Or.inr hy
      rw [this, List.append_nil]

/-- C5: for a record with a non-empty triggerWords list, the new chain is the ", "-join of the
first-occurrence deduplication (exact string equality) of the chain's tokens followed by the
tokens of the record's trigger words, where tokens splits on ',', trims each piece and drops
empty pieces; the new chain's own token sequence is that list and contains no token twice. -/
theorem addArtistTriggerWordsToChain_spec (artist : Artist) (chainValue : Str) (tw : List Str)
    (h : artist.triggerWords = some tw) (hne : tw ≠ []) :
    addArtistTriggerWordsToChain artist chainValue
      = join [',', ' ']
          (firstOccurrences (splitTrimFilter chainValue ++ tw.flatMap splitTrimFilter)) ∧
    tw.flatMap splitTrimFilter = splitTrimFilter (join [',', ' '] tw) ∧
    splitTrimFilter (addArtistTriggerWordsToChain artist chainValue)
      = firstOccurrences (splitTrimFilter chainValue ++ tw.flatMap splitTrimFilter) ∧
    (splitTrimFilter (addArtistTriggerWordsToChain artist chainValue)).Nodup := by
  refine ⟨addArtistTriggerWordsToChain_of_words artist chainValue tw h hne,
    (splitTrimFilter_join tw).symm,
    splitTrimFilter_addArtistTriggerWordsToChain artist chainValue tw h hne, ?_⟩
  rw [splitTrimFilter_addArtistTriggerWordsToChain artist chainValue tw h hne]
  exact nodup_firstOccurrences _

theorem addArtistTriggerWordsToChain_spec_witness :
    (withWords ["b".toList, "c, a".toList]).triggerWords = some ["b".toList, "c, a".toList] ∧
    addArtistTriggerWordsToChain (withWords ["b".toList, "c, a".toList]) " a ,, b".toList
      = "a, b, c".toList :=
  ⟨rfl, (addArtistTriggerWordsToChain_spec (withWords ["b".toList, "c, a".toList])
    " a ,, b".toList ["b".toList, "c, a".toList] rfl (by decide)).1.trans (by decide)⟩

/-- C6 (as stated, refuted): the chain "a, a" has the token sequence [a, a]; after adding a record
with trigger word "b" the chain is "a, b", whose token sequence [a, b] does not have [a, a] as a
prefix. -/
theorem addArtistTriggerWordsToChain_repeated_token_moves :
    addArtistTriggerWordsToChain (withWords ["b".toList]) "a, a".toList = "a, b".toList ∧
    ¬ (splitTrimFilter "a, a".toList <+:
        splitTrimFilter (addArtistTriggerWordsToChain (withWords ["b".toList]) "a, a".toList)) := by
  decide

/-- C6 (amended): when the existing chain has no repeated token, its token sequence is a prefix of
the token sequence of the new chain, and what follows it is exactly the record's tokens that were
not yet in the chain, each once, in the order they first appear on the record. -/
theorem addArtistTriggerWordsToChain_keeps_position (artist : Artist) (chainValue : Str)
    (hnd : (splitTrimFilter chainValue).Nodup) :
    splitTrimFilter (addArtistTriggerWordsToChain artist chainValue)
      = splitTrimFilter chainValue ++
          (firstOccurrences ((artist.triggerWords.getD []).flatMap splitTrimFilter)).filter
            (fun y => y ∉ splitTrimFilter chainValue) ∧
    splitTrimFilter chainValue <+:
      splitTrimFilter (addArtistTriggerWordsToChain artist chainValue) := by
  have key : splitTrimFilter (addArtistTriggerWordsToChain artist chainValue)
      = splitTrimFilter chainValue ++
          (firstOccurrences ((artist.triggerWords.getD []).flatMap splitTrimFilter)).filter
            (fun y => y ∉ splitTrimFilter chainValue) := by
    rcases htw : artist.triggerWords with _ | tw
    · rw [addArtistTriggerWordsToChain_of_no_words artist _ (Or.inl htw)]
      simp [firstOccurrences]
    · by_cases hne : tw = []
      · subst hne
        rw [addArtistTriggerWordsToChain_of_no_words artist _ (Or.inr htw)]
        simp [firstOccurrences]
      · rw [splitTrimFilter_addArtistTriggerWordsToChain artist chainValue tw htw hne,
          firstOccurrences_append, firstOccurrences_of_nodup hnd]
        rfl
  exact ⟨key, key ▸ List.prefix_append _ _⟩

theorem addArtistTriggerWordsToChain_keeps_position_witness :
    (splitTrimFilter "x, y".toList).Nodup ∧
    splitTrimFilter (addArtistTriggerWordsToChain (withWords ["y".toList, "z".toList]) "x, y".toList)
      = ["x".toList, "y".toList, "z".toList] :=
  ⟨by decide, (addArtistTriggerWordsToChain_keeps_position (withWords ["y".toList, "z".toList])
    "x, y".toList (by decide)).1.trans (by decide)⟩


/-! ## Reverse matching: C7, C8 -/

theorem mem_foldl_setAdd {α : Type} [DecidableEq α] (xs acc : List α) (x : α) :
    x ∈ xs.foldl setAdd acc ↔ x ∈ acc ∨ x ∈ xs := by
  induction xs generalizing acc with
  | nil => simp
  | cons y ys ih =>
    rw [List.foldl_cons, ih]
    by_cases hy : y ∈ acc
    · simp only [setAdd, hy, if_true, List.mem_cons]
      constructor
      · rintro (h | h)
        · exact Or.inl h
        · exact Or.inr (Or.inr h)
      · rintro (h | h | h)
        · exact Or.inl h
        · exact Or.inl (h ▸ hy)
        · exact Or.inr h
    · simp only [setAdd, hy, if_false, List.mem_append, List.mem_singleton, List.mem_cons]
      tauto

theorem chainWordsOf_eq (host : Host) (chainValue : Str) :
    chainWordsOf host chainValue = chainTokensFolded host chainValue := by
  unfold chainWordsOf chainTokensFolded
  rw [← split_trim chainValue, List.map_map]
  rfl

theorem artistHasMatchingTriggerWord_iff (host : Host) (chainValue : Str) (r : Artist) :
    (∃ w ws, r.triggerWords = some (w :: ws) ∧
      artistHasMatchingTriggerWord host (chainWordsOf host chainValue) (w :: ws) = true)
      ↔ recordMatches host chainValue r := by
  unfold recordMatches artistHasMatchingTriggerWord
  rw [← chainWordsOf_eq]
  constructor
  · rintro ⟨w, ws, htw, h⟩
    rw [List.any_eq_true] at h
    obtain ⟨x, hx, hxm⟩ := h
    exact ⟨x, by simpa [htw] using hx, by simpa using hxm⟩
  · rintro ⟨x, hx, hxm⟩
    rcases htw : r.triggerWords with _ | tw
    · simp [htw] at hx
    · cases tw with
      | nil => simp [htw] at hx
      | cons w ws =>
        refine ⟨w, ws, rfl, ?_⟩
        rw [List.any_eq_true]
        exact ⟨x, by simpa [htw] using hx, by simpa using hxm⟩

theorem matchArtist_of_matches (host : Host) {chainValue : Str} {r : Artist}
    (acc : MatchResult) (h : recordMatches host chainValue r) :
    matchArtist host (chainWordsOf host chainValue) acc r =
      { matchedArtistIds :=
          match r.artistId with
          | some ids => ids.foldl setAdd acc.matchedArtistIds
          | none => acc.matchedArtistIds
        matchedTrainingCounts :=
          match r.trainingCount with
          | .array cs => cs.foldl setAdd acc.matchedTrainingCounts
          | _ => acc.matchedTrainingCounts } := by
  obtain ⟨w, ws, htw, hm⟩ := (artistHasMatchingTriggerWord_iff host chainValue r).mpr h
  simp only [matchArtist, htw, hm, if_true]

theorem matchArtist_of_not_matches (host : Host) {chainValue : Str} {r : Artist}
    (acc : MatchResult) (h : ¬ recordMatches host chainValue r) :
    matchArtist host (chainWordsOf host chainValue) acc r = acc := by
  unfold matchArtist
  split
  · next w ws htw =>
    split_ifs with hm
    · exact absurd ((artistHasMatchingTriggerWord_iff host chainValue r).mp ⟨w, ws, htw, hm⟩) h
    · rfl
  · rfl

theorem mem_foldl_matchArtist_ids (host : Host) (chainValue : Str) (data : List Artist)
    (acc : MatchResult) (v : Str) :
    v ∈ (data.foldl (matchArtist host (chainWordsOf host chainValue)) acc).matchedArtistIds ↔
      v ∈ acc.matchedArtistIds ∨
        ∃ r ∈ data, recordMatches host chainValue r ∧
          ∃ ids, r.artistId = some ids ∧ v ∈ ids := by
  induction data generalizing acc with
  | nil => simp
  | cons a l ih =>
    rw [List.foldl_cons, ih]
    by_cases hm : recordMatches host chainValue a
    · rw [matchArtist_of_matches host acc hm]
      rcases hid : a.artistId with _ | ids
      · simp only [List.mem_cons, exists_eq_or_imp, hid]
        simp
      · simp only [List.mem_cons, exists_eq_or_imp, hid, mem_foldl_setAdd, Option.some.injEq,
          exists_eq_left', hm, true_and]
        tauto
    · rw [matchArtist_of_not_matches host acc hm]
      simp only [List.mem_cons, exists_eq_or_imp, hm, false_and, false_or]

theorem mem_foldl_matchArtist_counts (host : Host) (chainValue : Str) (data : List Artist)
    (acc : MatchResult) (c : Count) :
    c ∈ (data.foldl (matchArtist host (chainWordsOf host chainValue))
        acc).matchedTrainingCounts ↔
      c ∈ acc.matchedTrainingCounts ∨
        ∃ r ∈ data, recordMatches host chainValue r ∧
          ∃ cs, r.trainingCount = CountField.array cs ∧ c ∈ cs := by
  induction data generalizing acc with
  | nil => simp
  | cons a l ih =>
    rw [List.foldl_cons, ih]
    by_cases hm : recordMatches host chainValue a
    · rw [matchArtist_of_matches host acc hm]
      rcases htc : a.trainingCount with _ | s | cs
      · simp only [List.mem_cons, exists_eq_or_imp, htc]
        simp
      · simp only [List.mem_cons, exists_eq_or_imp, htc]
        simp
      · simp only [List.mem_cons, exists_eq_or_imp, htc, mem_foldl_setAdd,
          CountField.array.injEq, exists_eq_left', hm, true_and]
        tauto
    · rw [matchArtist_of_not_matches host acc hm]
      simp only [List.mem_cons, exists_eq_or_imp, hm, false_and, false_or]

theorem foldl_matchArtist_of_no_match (host : Host) (chainValue : Str) (data : List Artist)
    (acc : MatchResult) (h : ∀ r ∈ data, ¬ recordMatches host chainValue r) :
    data.foldl (matchArtist host (chainWordsOf host chainValue)) acc = acc := by
  induction data generalizing acc with
  | nil => rfl
  | cons a l ih =>
    rw [List.foldl_cons, matchArtist_of_not_matches host acc (h a (by simp))]
    exact ih acc (fun r hr => h r (List.mem_cons_of_mem _ hr))

/-- C7: in every browser, whatever letters its toLowerCase folds, the ID set and the
training-count set computed by saveArtistChainAsNewArtist are the unions of artistId and
trainingCount over the matching records, where a record matches iff one of its triggerWords,
case-folded, equals one of the chain's tokens (split on ',', trimmed, case-folded, empties
dropped); when no record matches both sets are empty; with the ASCII strings of the
specification's example, chain "red, blue" against a record with trigger words "blue", "green"
gives that record's ids, and chain "black" gives nothing. -/
theorem saveArtistChainAsNewArtist_union (host : Host) (chainValue : Str)
    (artistsData : List Artist) :
    (∀ v, v ∈ (saveArtistChainAsNewArtist host chainValue artistsData).matchedArtistIds ↔
      ∃ r ∈ artistsData, recordMatches host chainValue r ∧
        ∃ ids, r.artistId = some ids ∧ v ∈ ids) ∧
    (∀ c, c ∈ (saveArtistChainAsNewArtist host chainValue artistsData).matchedTrainingCounts ↔
      ∃ r ∈ artistsData, recordMatches host chainValue r ∧
        ∃ cs, r.trainingCount = CountField.array cs ∧ c ∈ cs) ∧
    ((∀ r ∈ artistsData, ¬ recordMatches host chainValue r) →
      saveArtistChainAsNewArtist host chainValue artistsData = ⟨[], []⟩) ∧
    saveArtistChainAsNewArtist caseInsensitiveHost "red, blue".toList
        [storedRecord 1 ["x1".toList] [.num 5] ["blue".toList, "green".toList]]
      = ⟨["x1".toList], [.num 5]⟩ ∧
    saveArtistChainAsNewArtist caseInsensitiveHost "black".toList
        [storedRecord 1 ["x1".toList] [.num 5] ["blue".toList, "green".toList]]
      = ⟨[], []⟩ := by
  refine ⟨fun v => ?_, fun c => ?_, fun h => ?_, by decide, by decide⟩
  · unfold saveArtistChainAsNewArtist
    rw [mem_foldl_matchArtist_ids]
    simp
  · unfold saveArtistChainAsNewArtist
    rw [mem_foldl_matchArtist_counts]
    simp
  · exact foldl_matchArtist_of_no_match host chainValue artistsData _ h

theorem mem_of_mem_split {s p : Str} {c : Char} (hp : p ∈ split s) (hc : c ∈ p) : c ∈ s := by
  induction s generalizing p with
  | nil =>
    simp only [split, List.mem_singleton] at hp
    subst hp
    exact hc
  | cons a as ih =>
    by_cases ha : a = ','
    · simp only [split, ha, if_true, List.mem_cons] at hp
      rcases hp with hp | hp
      · subst hp
        simp at hc
      · exact List.mem_cons_of_mem _ (ih hp hc)
    · obtain ⟨q, qs, hs, hcs⟩ := split_cons_of_ne ha as
      rw [hcs] at hp
      rcases List.mem_cons.mp hp with hp | hp
      · subst hp
        rcases List.mem_cons.mp hc with h | h
        · exact h ▸ List.mem_cons_self _ _
        · exact List.mem_cons_of_mem _ (ih (by rw [hs]; simp) h)
      · exact List.mem_cons_of_mem _ (ih (by rw [hs]; simp [hp]) hc)

theorem chainWordsOf_eq_nil (host : Host) {chainValue : Str}
    (h : ∀ c ∈ chainValue, isWhiteSpace c = true ∨ c = ',') :
    chainWordsOf host chainValue = [] := by
  rw [chainWordsOf_eq]
  unfold chainTokensFolded
  rw [List.filter_eq_nil_iff]
  intro x hx
  simp only [List.mem_map, exists_exists_and_eq_and] at hx
  obtain ⟨p, hp, rfl⟩ := hx
  have hall : ∀ c ∈ p, isWhiteSpace c = true := by
    intro c hc
    rcases h c (mem_of_mem_split hp hc) with hw | hcomma
    · exact hw
    · exact absurd (hcomma ▸ hc) (not_mem_of_mem_split hp)
  simp [trim_eq_nil_of_all hall, host.toLowerCase_nil]

theorem not_recordMatches_of_blank (host : Host) {chainValue : Str}
    (h : ∀ c ∈ chainValue, isWhiteSpace c = true ∨ c = ',') (r : Artist) :
    ¬ recordMatches host chainValue r := by
  rintro ⟨w, _, hw⟩
  rw [← chainWordsOf_eq, chainWordsOf_eq_nil host h] at hw
  simp at hw

/-- C8: for a chain that is empty or made only of whitespace and commas, whatever the records
(empty-string trigger words included), reverse matching gives an empty ID set and an empty
training-count set and no record passes the trigger-word test; the computation is total. -/
theorem saveArtistChainAsNewArtist_blank_chain (host : Host) (chainValue : Str)
    (artistsData : List Artist) (h : ∀ c ∈ chainValue, isWhiteSpace c = true ∨ c = ',') :
    (saveArtistChainAsNewArtist host chainValue artistsData).matchedArtistIds = [] ∧
    (saveArtistChainAsNewArtist host chainValue artistsData).matchedTrainingCounts = [] ∧
    ∀ r ∈ artistsData, ∀ tw, r.triggerWords = some tw →
      artistHasMatchingTriggerWord host (chainWordsOf host chainValue) tw = false := by
  have hres : saveArtistChainAsNewArtist host chainValue artistsData = ⟨[], []⟩ :=
    foldl_matchArtist_of_no_match host chainValue artistsData _
      (fun r _ => not_recordMatches_of_blank host h r)
  refine ⟨by rw [hres], by rw [hres], fun r _ tw _ => ?_⟩
  rw [chainWordsOf_eq_nil host h]
  simp [artistHasMatchingTriggerWord]

theorem saveArtistChainAsNewArtist_blank_chain_witness :
    (∀ c ∈ " , ,".toList, isWhiteSpace c = true ∨ c = ',') ∧
    (saveArtistChainAsNewArtist caseInsensitiveHost " , ,".toList
      [storedRecord 1 ["x1".toList] [.num 5] ["".toList, " ".toList]]).matchedArtistIds = [] :=
  ⟨by decide, (saveArtistChainAsNewArtist_blank_chain caseInsensitiveHost " , ,".toList
    [storedRecord 1 ["x1".toList] [.num 5] ["".toList, " ".toList]] (by decide)).1⟩


/-! ## Numbers -/

theorem bitLengthAux_le (fuel : Nat) : ∀ (n k : Nat), n < 2 ^ k → bitLengthAux fuel n ≤ k := by
  induction fuel with
  | zero => intro n k _; simp [bitLengthAux]
  | succ f ih =>
    intro n k h
    unfold bitLengthAux
    split_ifs with h0
    · exact Nat.zero_le _
    · cases k with
      | zero =>
        simp only [pow_zero, Nat.lt_one_iff] at h
        exact absurd h h0
      | succ k =>
        have hlt : n / 2 < 2 ^ k := by
          rw [Nat.div_lt_iff_lt_mul (by decide)]
          rw [pow_succ] at h
          exact h
        exact Nat.succ_le_succ (ih _ _ hlt)

theorem bitLength_le {n k : Nat} (h : n < 2 ^ k) : bitLength n ≤ k :=
  bitLengthAux_le n n k h

theorem bitLengthAux_zero (fuel : Nat) : bitLengthAux fuel 0 = 0 := by
  cases fuel <;> simp [bitLengthAux]

theorem pow_bitLengthAux_le (fuel : Nat) :
    ∀ n : Nat, n ≤ fuel → n ≠ 0 → 2 ^ (bitLengthAux fuel n - 1) ≤ n := by
  induction fuel with
  | zero => intro n h h0; exact absurd (Nat.le_zero.mp h) h0
  | succ f ih =>
    intro n h h0
    unfold bitLengthAux
    rw [if_neg h0, Nat.add_sub_cancel]
    by_cases h2 : n / 2 = 0
    · rw [h2, bitLengthAux_zero, pow_zero]
      exact Nat.one_le_iff_ne_zero.mpr h0
    · have hle : n / 2 ≤ f := by omega
      have hih := ih (n / 2) hle h2
      have hpos : bitLengthAux f (n / 2) ≠ 0 := by
        cases f with
        | zero => exact absurd (Nat.le_zero.mp hle) h2
        | succ g =>
          unfold bitLengthAux
          rw [if_neg h2]
          exact Nat.succ_ne_zero _
      obtain ⟨b, hb⟩ := Nat.exists_eq_succ_of_ne_zero hpos
      rw [hb] at hih ⊢
      rw [Nat.succ_sub_one] at hih
      rw [pow_succ]
      calc 2 ^ b * 2 ≤ n / 2 * 2 := Nat.mul_le_mul_right 2 hih
        _ ≤ n := Nat.div_mul_le_self n 2

theorem pow_bitLength_le {n : Nat} (h : n ≠ 0) : 2 ^ (bitLength n - 1) ≤ n :=
  pow_bitLengthAux_le n n (le_refl n) h

theorem roundToDouble_of_lt {a : Nat} (h : a < 2 ^ 53) : roundToDouble a = a := by
  unfold roundToDouble
  rw [if_pos h]

theorem roundToDouble_pos {a : Nat} (h : 0 < a) : 0 < roundToDouble a := by
  unfold roundToDouble
  dsimp only
  split_ifs with h1 h2
  · exact h
  · exact Nat.mul_pos (Nat.succ_pos _) (pow_pos (by decide) _)
  · refine Nat.mul_pos (Nat.div_pos ?_ (pow_pos (by decide) _)) (pow_pos (by decide) _)
    calc 2 ^ (bitLength a - 53) ≤ 2 ^ (bitLength a - 1) :=
          Nat.pow_le_pow_right (by decide) (by omega)
      _ ≤ a := pow_bitLength_le (Nat.pos_iff_ne_zero.mp h)

/-- Rounding a magnitude below `2 ^ k` gives at most `2 ^ k`. -/
theorem roundToDouble_le_pow {a k : Nat} (h : a < 2 ^ k) : roundToDouble a ≤ 2 ^ k := by
  unfold roundToDouble
  have hbl : bitLength a ≤ k := bitLength_le h
  have he : bitLength a - 53 ≤ k := le_trans (Nat.sub_le _ _) hbl
  have hq : a / 2 ^ (bitLength a - 53) + 1 ≤ 2 ^ (k - (bitLength a - 53)) := by
    apply Nat.succ_le_of_lt
    rw [Nat.div_lt_iff_lt_mul (pow_pos (by decide) _), ← pow_add, Nat.sub_add_cancel he]
    exact h
  have hup : (a / 2 ^ (bitLength a - 53) + 1) * 2 ^ (bitLength a - 53) ≤ 2 ^ k := by
    calc (a / 2 ^ (bitLength a - 53) + 1) * 2 ^ (bitLength a - 53)
        ≤ 2 ^ (k - (bitLength a - 53)) * 2 ^ (bitLength a - 53) :=
          Nat.mul_le_mul_right _ hq
      _ = 2 ^ k := by rw [← pow_add, Nat.sub_add_cancel he]
  dsimp only
  split_ifs with h1 h2
  · exact le_of_lt h
  · exact hup
  · exact le_trans (Nat.mul_le_mul_right _ (Nat.le_succ _)) hup

theorem ofInt_of_natAbs_lt {n : Int} (h : n.natAbs < 2 ^ 53) :
    JsNumber.ofInt n = .finite n := by
  unfold JsNumber.ofInt
  rw [roundToDouble_of_lt h]
  have hb : ¬ bitLength n.natAbs > 1024 := by
    have := bitLength_le h
    omega
  rw [if_neg hb]
  congr 1
  split_ifs with hn
  · omega
  · omega

/-- The number of an exact integer whose magnitude is below `2 ^ k`, for some `k` below 1024,
is finite. -/
theorem ofInt_finite {n : Int} {k : Nat} (hk : k < 1024) (h : n.natAbs < 2 ^ k) :
    ∃ m, JsNumber.ofInt n = .finite m := by
  unfold JsNumber.ofInt
  have h1 : roundToDouble n.natAbs < 2 ^ (k + 1) :=
    lt_of_le_of_lt (roundToDouble_le_pow h) (Nat.pow_lt_pow_right (by decide) (Nat.lt_succ_self k))
  have hb : ¬ bitLength (roundToDouble n.natAbs) > 1024 := by
    have := bitLength_le h1
    omega
  rw [if_neg hb]
  exact ⟨_, rfl⟩

theorem comparatorValue_ofInt_pos {n : Int} (h : 0 < n) :
    0 < (JsNumber.ofInt n).comparatorValue := by
  have hpos : 0 < roundToDouble n.natAbs := roundToDouble_pos (Int.natAbs_pos.mpr (ne_of_gt h))
  unfold JsNumber.ofInt
  have hn : ¬ n < 0 := not_lt.mpr (le_of_lt h)
  split_ifs
  · simp [JsNumber.comparatorValue, hn]
  · simp only [JsNumber.comparatorValue]
    exact Int.ofNat_pos.mpr hpos

theorem comparatorValue_ofInt_neg {n : Int} (h : n < 0) :
    (JsNumber.ofInt n).comparatorValue < 0 := by
  have hpos : 0 < roundToDouble n.natAbs := roundToDouble_pos (Int.natAbs_pos.mpr (ne_of_lt h))
  unfold JsNumber.ofInt
  split_ifs
  · simp [JsNumber.comparatorValue, h]
  · simp only [JsNumber.comparatorValue]
    have : (0 : Int) < (roundToDouble n.natAbs : Int) := Int.ofNat_pos.mpr hpos
    omega

theorem comparatorValue_ofInt_zero : (JsNumber.ofInt 0).comparatorValue = 0 := by decide

/-- The sign of the comparator's result on two finite keys is the sign of their exact
difference: rounding the difference never changes its sign. -/
theorem comparatorValue_sub_le_iff (x y : Int) :
    ((JsNumber.finite y).sub (JsNumber.finite x)).comparatorValue ≤ 0 ↔ y ≤ x := by
  have hsub : (JsNumber.finite y).sub (JsNumber.finite x) = JsNumber.ofInt (y + -x) := rfl
  rw [hsub]
  rcases lt_trichotomy (y + -x) 0 with h | h | h
  · have := comparatorValue_ofInt_neg h
    constructor <;> intro <;> omega
  · rw [h, comparatorValue_ofInt_zero]
    constructor <;> intro <;> omega
  · have := comparatorValue_ofInt_pos h
    constructor <;> intro <;> omega

/-! ## Aggregation and filtering: C9, C10 -/

theorem parseIntOrZero_of_safe {c : Count} (h : (integerValueOrZero c).natAbs < 2 ^ 53) :
    parseIntOrZero c = .finite (integerValueOrZero c) := by
  cases c with
  | num n =>
    simp only [integerValueOrZero] at h
    have h21 : n.natAbs < 10 ^ 21 := lt_trans h (by decide)
    simp only [parseIntOrZero, parseIntCount, integerValueOrZero, ofInt_of_natAbs_lt h,
      parseIntOfNumber, if_pos h21, JsNumber.orZero]
    split_ifs with h0
    · rw [h0]
    · rfl
  | str s =>
    simp only [parseIntOrZero, parseIntCount, integerValueOrZero, parseInt] at h ⊢
    cases hp : parseIntExact s with
    | none => rfl
    | some v =>
      rw [hp] at h
      simp only [Option.getD_some] at h ⊢
      rw [ofInt_of_natAbs_lt h]
      simp only [JsNumber.orZero]
      split_ifs with h0
      · rw [h0]
      · rfl
  | null => rfl

theorem foldl_add_of_safe (cs : List Count) (init : Int)
    (h : init.natAbs + (cs.map (fun c => (integerValueOrZero c).natAbs)).sum < 2 ^ 53) :
    cs.foldl (fun (sum : JsNumber) c => sum.add (parseIntOrZero c)) (.finite init)
      = .finite (init + (cs.map integerValueOrZero).sum) := by
  induction cs generalizing init with
  | nil => simp
  | cons c cs ih =>
    simp only [List.map_cons, List.sum_cons] at h
    have hc : (integerValueOrZero c).natAbs < 2 ^ 53 := by omega
    have hadd : (init + integerValueOrZero c).natAbs < 2 ^ 53 := by
      have := Int.natAbs_add_le init (integerValueOrZero c)
      omega
    have hstep : (JsNumber.finite init).add (parseIntOrZero c)
        = .finite (init + integerValueOrZero c) := by
      rw [parseIntOrZero_of_safe hc]
      exact ofInt_of_natAbs_lt hadd
    rw [List.foldl_cons, hstep, ih]
    · simp [add_assoc]
    · have := Int.natAbs_add_le init (integerValueOrZero c)
      omega

theorem sortCount_of_safe {a : Artist} (h : SafeCounts (countEntries a)) :
    sortCount a = .finite (summedTrainingCount a) := by
  unfold SafeCounts countEntries at h
  unfold sortCount summedTrainingCount
  cases htc : a.trainingCount with
  | absent => rfl
  | scalar c =>
    rw [htc] at h
    simp only [List.map_cons, List.map_nil, List.sum_cons, List.sum_nil, add_zero] at h
    exact parseIntOrZero_of_safe h
  | array cs =>
    rw [htc] at h
    simp only
    rw [foldl_add_of_safe cs 0 (by simpa using h), zero_add]

/-- C9 (as stated, refuted): the aggregate is computed in double-precision numbers, so it is not
always the sum of the entries' integer values: the single entry "9007199254740993" gives
9007199254740992; the entries "9007199254740992", "1" give 9007199254740992 where the sum is
9007199254740993; and the single number 10^21, which prints as 1e+21, gives 1. -/
theorem trainingCount_sum_rounded :
    sortCount (named 1 "x".toList [Count.str "9007199254740993".toList])
      = JsNumber.finite 9007199254740992 ∧
    ([Count.str "9007199254740993".toList].map integerValueOrZero).sum = 9007199254740993 ∧
    sortCount (named 1 "x".toList [Count.str "9007199254740992".toList, Count.str "1".toList])
      = JsNumber.finite 9007199254740992 ∧
    ([Count.str "9007199254740992".toList, Count.str "1".toList].map integerValueOrZero).sum
      = 9007199254740993 ∧
    sortCount (named 1 "x".toList [Count.num 1000000000000000000000]) = JsNumber.finite 1 ∧
    ([Count.num 1000000000000000000000].map integerValueOrZero).sum
      = 1000000000000000000000 := by
  decide

/-- C9 (amended): for every sequence of training-count entries whose integer values have
magnitudes that add up to less than 2^53, the aggregate used for sorting equals the sum over the
entries of the entry's integer value when it parses as an integer (JavaScript parseInt) and 0
otherwise; the empty sequence sums to 0, ["5","x","3"] sums to 8; and for every record, whatever
its entries, the list, the gallery and the detail panel show the same value as the sort key. -/
theorem trainingCount_aggregate (a : Artist) (cs : List Count) (hsafe : SafeCounts cs) :
    sortCount { a with trainingCount := (CountField.array cs) }
      = JsNumber.finite (cs.map integerValueOrZero).sum ∧
    sortCount { a with trainingCount := (CountField.array []) } = JsNumber.finite 0 ∧
    sortCount { a with trainingCount :=
      (CountField.array [Count.str "5".toList, Count.str "x".toList, Count.str "3".toList]) }
      = JsNumber.finite 8 ∧
    (∀ r : Artist, renderArtistList_displayTrainingCount r = sortCount r ∧
      renderGallery_displayTrainingCount r = sortCount r ∧
      loadArtistDetails_displayTrainingCount r = sortCount r) := by
  refine ⟨?_, rfl, by simp only [sortCount]; decide, fun r => ⟨rfl, rfl, rfl⟩⟩
  exact sortCount_of_safe (a := { a with trainingCount := (CountField.array cs) }) hsafe

theorem trainingCount_aggregate_witness :
    SafeCounts [Count.num 100, Count.str "50px".toList, Count.str "x".toList, Count.null] ∧
    sortCount { named 1 "x".toList [] with trainingCount :=
      (CountField.array
        [Count.num 100, Count.str "50px".toList, Count.str "x".toList, Count.null]) }
      = JsNumber.finite 150 :=
  ⟨by unfold SafeCounts; decide,
    (trainingCount_aggregate (named 1 "x".toList [])
      [Count.num 100, Count.str "50px".toList, Count.str "x".toList, Count.null]
      (by unfold SafeCounts; decide)).1.trans (by decide)⟩

theorem includes_iff (s t : Str) : includes s t = true ↔ t <:+: s := by
  unfold includes
  rw [List.any_eq_true, List.infix_iff_prefix_suffix]
  constructor
  · rintro ⟨u, hu, hp⟩
    exact ⟨u, List.isPrefixOf_iff_prefix.mp hp, (List.mem_tails _ _).mp hu⟩
  · rintro ⟨u, hp, hu⟩
    exact ⟨u, (List.mem_tails _ _).mpr hu, List.isPrefixOf_iff_prefix.mpr hp⟩

theorem mem_arraySort {α : Type} (comparefn : α → α → Int) (l : List α) (x : α) :
    x ∈ arraySort comparefn l ↔ x ∈ l :=
  (List.perm_insertionSort _ l).mem_iff

theorem matchesSearchTerm_iff (host : Host) {term : Str} (hne : term ≠ []) (r : Artist) :
    matchesSearchTerm host (host.toLowerCase term) r = true ↔ searchKeeps host term r := by
  have hl : host.toLowerCase term ≠ [] := host.toLowerCase_ne_nil term hne
  have hnil : ¬ (host.toLowerCase term <:+: ([] : Str)) := by
    intro h
    exact hl (List.infix_nil.mp h)
  unfold matchesSearchTerm searchKeeps
  simp only [Bool.or_eq_true, includes_iff, hne, false_or, or_assoc]
  refine or_congr Iff.rfl (or_congr ?_ (or_congr ?_ (or_congr ?_ ?_)))
  · cases r.artistId with
    | none => simp
    | some ids => simp [List.any_eq_true, includes_iff]
  · cases r.styleDescription with
    | none => simp
    | some d =>
      simp only [Bool.and_eq_true, decide_eq_true_eq, includes_iff, Option.some.injEq,
        exists_eq_left']
      constructor
      · exact fun h => h.2
      · intro h
        refine ⟨fun e => hnil ?_, h⟩
        rw [e, host.toLowerCase_nil] at h
        exact h
  · cases r.triggerWords with
    | none => simp
    | some ws => simp [List.any_eq_true, includes_iff]
  · cases r.tags with
    | none => simp
    | some ts => simp [List.any_eq_true, includes_iff]

theorem mem_sortedArtists (host : Host) (artistsData : List Artist) (value sortBy : Str)
    (r : Artist) :
    r ∈ sortedArtists host artistsData (onSearchInput host value) sortBy ↔
      r ∈ artistsData ∧ searchKeeps host value r := by
  unfold sortedArtists onSearchInput filteredArtists
  rw [mem_arraySort]
  by_cases hv : value = []
  · subst hv
    simp [host.toLowerCase_nil, searchKeeps]
  · have hl : host.toLowerCase value ≠ [] := host.toLowerCase_ne_nil value hv
    rw [if_pos hl, List.mem_filter, matchesSearchTerm_iff host hv]

/-- C10: in every browser, whatever letters its toLowerCase folds, a record is in the view built
by filterAndRender iff it is in artistsData and the search term is empty or its lower-cased form
is a substring of the lower-cased name, of some lower-cased artistId entry, of the lower-cased
styleDescription, of some lower-cased triggerWords entry or of some lower-cased tags entry;
absent fields count as no match (the function is total), and the term "cat" keeps a record whose
only searchable field besides the name is tags ["Category A"]. -/
theorem filterAndRender_view_membership (host : Host) (artistsData : List Artist)
    (value sortBy : Str) (r : Artist) :
    (r ∈ sortedArtists host artistsData (onSearchInput host value) sortBy ↔
      r ∈ artistsData ∧ searchKeeps host value r) ∧
    sortedArtists caseInsensitiveHost [taggedOnly "Foo".toList ["Category A".toList]]
        (onSearchInput caseInsensitiveHost "cat".toList) "count".toList
      = [taggedOnly "Foo".toList ["Category A".toList]] ∧
    sortedArtists caseInsensitiveHost [taggedOnly "Foo".toList ["Category A".toList]]
        (onSearchInput caseInsensitiveHost "dog".toList) "count".toList
      = [] := by
  exact ⟨mem_sortedArtists host artistsData value sortBy r, by decide, by decide⟩

/-! ## Sorting and selection: C11, C12, C13, C14 -/

theorem arraySort_perm {α : Type} (comparefn : α → α → Int) (l : List α) :
    (arraySort comparefn l).Perm l :=
  List.perm_insertionSort _ l

theorem arraySort_sorted {α : Type} (comparefn : α → α → Int)
    (htotal : ∀ a b, comparefn a b ≤ 0 ∨ comparefn b a ≤ 0)
    (htrans : ∀ a b c, comparefn a b ≤ 0 → comparefn b c ≤ 0 → comparefn a c ≤ 0)
    (l : List α) : (arraySort comparefn l).Sorted (fun a b => comparefn a b ≤ 0) := by
  haveI : IsTotal α (fun a b => comparefn a b ≤ 0) := ⟨htotal⟩
  haveI : IsTrans α (fun a b => comparefn a b ≤ 0) := ⟨htrans⟩
  exact List.sorted_insertionSort _ l

theorem arraySort_of_all_le {α : Type} (comparefn : α → α → Int)
    (h : ∀ a b, comparefn a b ≤ 0) (l : List α) : arraySort comparefn l = l := by
  unfold arraySort
  induction l with
  | nil => rfl
  | cons a l ih =>
    rw [List.insertionSort_cons_eq_take_drop] at *
    simp only [ih]
    cases l with
    | nil => rfl
    | cons b l => simp [List.takeWhile, List.dropWhile, h a b]

theorem filter_orderedInsert_of_neg {α : Type} (r : α → α → Prop) [DecidableRel r]
    (p : α → Bool) (a : α) (ha : p a = false) (l : List α) :
    (l.orderedInsert r a).filter p = l.filter p := by
  induction l with
  | nil => simp [ha]
  | cons b l ih =>
    rw [List.orderedInsert]
    split_ifs
    · simp [List.filter_cons, ha]
    · simp only [List.filter_cons, ih]

theorem filter_orderedInsert_of_pos {α : Type} (r : α → α → Prop) [DecidableRel r]
    (p : α → Bool) (hp : ∀ a b, p a = true → p b = true → r a b) (a : α) (ha : p a = true)
    (l : List α) : (l.orderedInsert r a).filter p = a :: l.filter p := by
  induction l with
  | nil => simp [ha]
  | cons b l ih =>
    rw [List.orderedInsert]
    split_ifs with hab
    · simp [List.filter_cons, ha]
    · have hb : p b = false := by
        rcases hpb : p b with _ | _
        · rfl
        · exact absurd (hp a b ha hpb) hab
      simp only [List.filter_cons, hb, ih]
      simp

theorem filter_insertionSort {α : Type} (r : α → α → Prop) [DecidableRel r]
    (p : α → Bool) (hp : ∀ a b, p a = true → p b = true → r a b) (l : List α) :
    (l.insertionSort r).filter p = l.filter p := by
  induction l with
  | nil => rfl
  | cons a l ih =>
    rw [List.insertionSort]
    rcases hpa : p a with _ | _
    · rw [filter_orderedInsert_of_neg r p a hpa, ih]
      simp [List.filter_cons, hpa]
    · rw [filter_orderedInsert_of_pos r p hp a hpa, ih]
      simp [List.filter_cons, hpa]

theorem orderedInsert_congr {α : Type} (r r' : α → α → Prop) [DecidableRel r]
    [DecidableRel r'] (a : α) (l : List α) (h : ∀ b ∈ l, (r a b ↔ r' a b)) :
    l.orderedInsert r a = l.orderedInsert r' a := by
  induction l with
  | nil => rfl
  | cons b l ih =>
    have hab := h b (List.mem_cons_self _ _)
    have hl := ih (fun c hc => h c (List.mem_cons_of_mem _ hc))
    by_cases hr : r a b
    · simp [List.orderedInsert, hr, hab.mp hr]
    · have hr' : ¬ r' a b := fun h' => hr (hab.mpr h')
      simp [List.orderedInsert, hr, hr', hl]

theorem insertionSort_congr {α : Type} (r r' : α → α → Prop) [DecidableRel r]
    [DecidableRel r'] (l : List α) (h : ∀ a ∈ l, ∀ b ∈ l, (r a b ↔ r' a b)) :
    l.insertionSort r = l.insertionSort r' := by
  induction l with
  | nil => rfl
  | cons a l ih =>
    have hl := ih (fun x hx y hy =>
      h x (List.mem_cons_of_mem _ hx) y (List.mem_cons_of_mem _ hy))
    rw [List.insertionSort, List.insertionSort, hl]
    apply orderedInsert_congr
    intro b hb
    exact h a (List.mem_cons_self _ _) b
      (List.mem_cons_of_mem _ ((List.perm_insertionSort r' l).subset hb))

theorem compareArtists_count (host : Host) (a b : Artist) :
    compareArtists host "count".toList a b
      = ((sortCount b).sub (sortCount a)).comparatorValue := by
  simp [compareArtists]

theorem compareArtists_count_le_iff (host : Host) {a b : Artist}
    (ha : SafeCounts (countEntries a)) (hb : SafeCounts (countEntries b)) :
    compareArtists host "count".toList a b ≤ 0
      ↔ summedTrainingCount b - summedTrainingCount a ≤ 0 := by
  rw [compareArtists_count, sortCount_of_safe ha, sortCount_of_safe hb,
    comparatorValue_sub_le_iff]
  omega

theorem mem_filteredArtists {host : Host} {artistsData : List Artist} {term : Str} {r : Artist}
    (h : r ∈ filteredArtists host artistsData term) : r ∈ artistsData := by
  unfold filteredArtists at h
  split_ifs at h
  · exact (List.mem_filter.mp h).1
  · exact h

/-- With sort key 'count', on records whose counts are safe, the view is the filtered list
sorted, stably, by the exact summed training count, descending. -/
theorem sortedArtists_count_eq (host : Host) (artistsData : List Artist) (term : Str)
    (hsafe : ∀ r ∈ artistsData, SafeCounts (countEntries r)) :
    sortedArtists host artistsData term "count".toList
      = (filteredArtists host artistsData term).insertionSort
          (fun a b => summedTrainingCount b - summedTrainingCount a ≤ 0) := by
  unfold sortedArtists arraySort
  apply insertionSort_congr
  intro a ha b hb
  exact compareArtists_count_le_iff host (hsafe a (mem_filteredArtists ha))
    (hsafe b (mem_filteredArtists hb))

theorem compareArtists_name (host : Host) (a b : Artist) :
    compareArtists host "name".toList a b = host.localeCompare a.name b.name := by
  have h : ¬ ("name".toList = "count".toList) := by decide
  simp [compareArtists, h]

theorem compareArtists_unknown (host : Host) (sortBy : Str) (h1 : sortBy ≠ "count".toList)
    (h2 : sortBy ≠ "name".toList) (h3 : sortBy ≠ "date".toList) (a b : Artist) :
    compareArtists host sortBy a b = 0 := by
  unfold compareArtists
  rw [if_neg h1, if_neg h2, if_neg h3]

/-- C11 (as stated, refuted): the sort key is a double, which cannot tell 9007199254740992 from
9007199254740993. With sort key 'count' the view of the list [A, B], where A has the entry
"9007199254740992" and B the entries "9007199254740992", "1", is [A, B]: the comparator returns
0 for the pair, and A, whose summed training count is the smaller one, stays in front of B. -/
theorem filterAndRender_count_not_descending :
    sortedArtists caseInsensitiveHost
        [named 1 "A".toList [Count.str "9007199254740992".toList],
         named 2 "B".toList [Count.str "9007199254740992".toList, Count.str "1".toList]]
        [] "count".toList
      = [named 1 "A".toList [Count.str "9007199254740992".toList],
         named 2 "B".toList [Count.str "9007199254740992".toList, Count.str "1".toList]] ∧
    compareArtists caseInsensitiveHost "count".toList
        (named 1 "A".toList [Count.str "9007199254740992".toList])
        (named 2 "B".toList [Count.str "9007199254740992".toList, Count.str "1".toList]) = 0 ∧
    summedTrainingCount (named 1 "A".toList [Count.str "9007199254740992".toList])
      = 9007199254740992 ∧
    summedTrainingCount
        (named 2 "B".toList [Count.str "9007199254740992".toList, Count.str "1".toList])
      = 9007199254740993 ∧
    ¬ (summedTrainingCount (named 1 "A".toList [Count.str "9007199254740992".toList])
      ≥ summedTrainingCount
        (named 2 "B".toList [Count.str "9007199254740992".toList, Count.str "1".toList])) := by
  decide

/-- C11 (amended): when in every record of artistsData the magnitudes of the integer values of
the trainingCount entries add up to less than 2^53, then with sort key 'count' the view built by
filterAndRender is a permutation of the filtered records in which every record's summed training
count (the exact sum of the integer values of its entries) is at least that of each record after
it, in particular of the next one; records with the same sum keep the relative order they have
in the filtered list; and filterAndRender leaves artistsData of that state as it was. -/
theorem filterAndRender_count_descending (host : Host) (st : ViewState)
    (hkey : st.sortBy = "count".toList)
    (hsafe : ∀ r ∈ st.artistsData, SafeCounts (countEntries r)) :
    (sortedArtists host st.artistsData st.currentSearchTerm st.sortBy).Perm
      (filteredArtists host st.artistsData st.currentSearchTerm) ∧
    (sortedArtists host st.artistsData st.currentSearchTerm st.sortBy).Chain'
      (fun a b => summedTrainingCount a ≥ summedTrainingCount b) ∧
    (sortedArtists host st.artistsData st.currentSearchTerm st.sortBy).Pairwise
      (fun a b => summedTrainingCount a ≥ summedTrainingCount b) ∧
    (∀ k : Int,
      (sortedArtists host st.artistsData st.currentSearchTerm st.sortBy).filter
          (fun a => decide (summedTrainingCount a = k))
        = (filteredArtists host st.artistsData st.currentSearchTerm).filter
          (fun a => decide (summedTrainingCount a = k))) ∧
    (filterAndRender host st).artistsData = st.artistsData := by
  rw [hkey]
  have hs : (sortedArtists host st.artistsData st.currentSearchTerm "count".toList).Pairwise
      (fun a b => summedTrainingCount a ≥ summedTrainingCount b) := by
    rw [sortedArtists_count_eq host _ _ hsafe]
    haveI : IsTotal Artist (fun a b => summedTrainingCount b - summedTrainingCount a ≤ 0) :=
      ⟨fun a b => by omega⟩
    haveI : IsTrans Artist (fun a b => summedTrainingCount b - summedTrainingCount a ≤ 0) :=
      ⟨fun a b c hab hbc => by omega⟩
    have h := List.sorted_insertionSort
      (fun a b : Artist => summedTrainingCount b - summedTrainingCount a ≤ 0)
      (filteredArtists host st.artistsData st.currentSearchTerm)
    refine List.Pairwise.imp ?_ h
    intro a b hab
    omega
  refine ⟨arraySort_perm _ _, List.Pairwise.chain' hs, hs, fun k => ?_, ?_⟩
  · rw [sortedArtists_count_eq host _ _ hsafe]
    apply filter_insertionSort
    intro a b ha hb
    simp only [decide_eq_true_eq] at ha hb
    omega
  · unfold filterAndRender
    simp only
    split
    · split <;> rfl
    · rfl

theorem filterAndRender_count_descending_witness :
    (∀ r ∈ [named 1 "a".toList [Count.num 1, Count.str "2".toList],
        named 2 "b".toList [Count.str "x".toList],
        named 3 "c".toList [Count.num 7], named 4 "d".toList [Count.str "3px".toList]],
      SafeCounts (countEntries r)) ∧
    sortedArtists caseInsensitiveHost
        [named 1 "a".toList [Count.num 1, Count.str "2".toList],
          named 2 "b".toList [Count.str "x".toList],
          named 3 "c".toList [Count.num 7], named 4 "d".toList [Count.str "3px".toList]]
        [] "count".toList
      = [named 3 "c".toList [Count.num 7],
          named 1 "a".toList [Count.num 1, Count.str "2".toList],
          named 4 "d".toList [Count.str "3px".toList],
          named 2 "b".toList [Count.str "x".toList]] ∧
    (sortedArtists caseInsensitiveHost
        [named 1 "a".toList [Count.num 1, Count.str "2".toList],
          named 2 "b".toList [Count.str "x".toList],
          named 3 "c".toList [Count.num 7], named 4 "d".toList [Count.str "3px".toList]]
        [] "count".toList).Pairwise
      (fun a b => summedTrainingCount a ≥ summedTrainingCount b) :=
  ⟨by unfold SafeCounts; decide, by decide,
    (filterAndRender_count_descending caseInsensitiveHost
      { artistsData :=
          [named 1 "a".toList [Count.num 1, Count.str "2".toList],
            named 2 "b".toList [Count.str "x".toList],
            named 3 "c".toList [Count.num 7], named 4 "d".toList [Count.str "3px".toList]]
        currentArtist := none
        sortBy := "count".toList
        currentSearchTerm := [] }
      rfl (by unfold SafeCounts; decide)).2.2.1⟩

/-- C12: with a sort key that is none of 'count', 'name', 'date' the view built by
filterAndRender is the filtered records in their original order. -/
theorem filterAndRender_unknown_key (host : Host) (artistsData : List Artist)
    (currentSearchTerm sortBy : Str) (h1 : sortBy ≠ "count".toList)
    (h2 : sortBy ≠ "name".toList) (h3 : sortBy ≠ "date".toList) :
    sortedArtists host artistsData currentSearchTerm sortBy
      = filteredArtists host artistsData currentSearchTerm := by
  unfold sortedArtists
  exact arraySort_of_all_le _
    (fun a b => le_of_eq (compareArtists_unknown host sortBy h1 h2 h3 a b)) _

theorem filterAndRender_unknown_key_witness :
    "size".toList ≠ "count".toList ∧
    sortedArtists caseInsensitiveHost
      [named 1 "b".toList [.num 1], named 2 "a".toList [.num 5]] [] "size".toList
      = [named 1 "b".toList [.num 1], named 2 "a".toList [.num 5]] :=
  ⟨by decide, (filterAndRender_unknown_key caseInsensitiveHost
    [named 1 "b".toList [.num 1], named 2 "a".toList [.num 5]] [] "size".toList
    (by decide) (by decide) (by decide)).trans (by decide)⟩

theorem caseInsensitiveHost_le_iff (a b : Str) :
    caseInsensitiveHost.localeCompare a b ≤ 0
      ↔ strLe (asciiToLowerCase a) (asciiToLowerCase b) = true := by
  simp only [caseInsensitiveHost]
  split_ifs with h1 h2 <;> simp [h1]

/-- C13: with sort key 'name' the view is a permutation of the filtered records ordered ascending
by the host's locale collation of the names (localeCompare, a consistent comparator), not by code
values, and the sort is stable: the records bearing any one name appear in the same relative
order as in the filtered list. -/
theorem filterAndRender_name_order (host : Host)
    (htotal : ∀ a b, host.localeCompare a b ≤ 0 ∨ host.localeCompare b a ≤ 0)
    (htrans : ∀ a b c, host.localeCompare a b ≤ 0 → host.localeCompare b c ≤ 0 →
      host.localeCompare a c ≤ 0)
    (artistsData : List Artist) (currentSearchTerm : Str) :
    (sortedArtists host artistsData currentSearchTerm "name".toList).Perm
      (filteredArtists host artistsData currentSearchTerm) ∧
    (sortedArtists host artistsData currentSearchTerm "name".toList).Pairwise
      (fun a b => host.localeCompare a.name b.name ≤ 0) ∧
    ∀ n : Str,
      (sortedArtists host artistsData currentSearchTerm "name".toList).filter
          (fun a => decide (a.name = n))
        = (filteredArtists host artistsData currentSearchTerm).filter
          (fun a => decide (a.name = n)) := by
  refine ⟨arraySort_perm _ _, ?_, fun n => ?_⟩
  · have h := arraySort_sorted (compareArtists host "name".toList)
      (fun a b => by simp only [compareArtists_name]; exact htotal _ _)
      (fun a b c => by simp only [compareArtists_name]; exact htrans _ _ _)
      (filteredArtists host artistsData currentSearchTerm)
    unfold sortedArtists
    refine List.Pairwise.imp ?_ h
    intro a b hab
    rw [compareArtists_name] at hab
    exact hab
  · unfold sortedArtists arraySort
    apply filter_insertionSort
    intro a b ha hb
    simp only [decide_eq_true_eq] at ha hb
    rw [compareArtists_name, ha, hb]
    exact (htotal n n).elim id id

theorem filterAndRender_name_order_witness :
    (∀ a b, caseInsensitiveHost.localeCompare a b ≤ 0 ∨
      caseInsensitiveHost.localeCompare b a ≤ 0) ∧
    sortedArtists caseInsensitiveHost
      [named 1 "Ω-art".toList [], named 2 "Zeta".toList [], named 3 "Alpha".toList [],
        named 4 "beta".toList [], named 5 "Zeta".toList []] [] "name".toList
      = [named 3 "Alpha".toList [], named 4 "beta".toList [], named 2 "Zeta".toList [],
          named 5 "Zeta".toList [], named 1 "Ω-art".toList []] ∧
    (sortedArtists caseInsensitiveHost
      [named 1 "Ω-art".toList [], named 2 "Zeta".toList [], named 3 "Alpha".toList [],
        named 4 "beta".toList [], named 5 "Zeta".toList []] [] "name".toList).Pairwise
      (fun a b => caseInsensitiveHost.localeCompare a.name b.name ≤ 0) :=
  ⟨fun a b => by
      simp only [caseInsensitiveHost_le_iff]
      exact strLe_total _ _,
    by decide,
    (filterAndRender_name_order caseInsensitiveHost
      (fun a b => by
        simp only [caseInsensitiveHost_le_iff]
        exact strLe_total _ _)
      (fun a b c => by
        simp only [caseInsensitiveHost_le_iff]
        exact strLe_trans _ _ _)
      [named 1 "Ω-art".toList [], named 2 "Zeta".toList [], named 3 "Alpha".toList [],
        named 4 "beta".toList [], named 5 "Zeta".toList []] []).2.1⟩

theorem find?_id_eq_none {l : List Artist} {i : Int} :
    l.find? (fun a => decide (a.id = i)) = none ↔ ∀ a ∈ l, a.id ≠ i := by
  simp [List.find?_eq_none]

/-- C14: after filterAndRender the selection is null or has the id of a record of the produced
view; a selection whose id is on no record of the view is cleared, and a selection whose id is
on a record of the view stays as it was. -/
theorem filterAndRender_selection (host : Host) (st : ViewState) :
    ((filterAndRender host st).currentArtist = none ∨
      ∃ cur, (filterAndRender host st).currentArtist = some cur ∧
        ∃ a ∈ sortedArtists host st.artistsData st.currentSearchTerm st.sortBy,
          a.id = cur.id) ∧
    (∀ cur, st.currentArtist = some cur →
      (∀ a ∈ sortedArtists host st.artistsData st.currentSearchTerm st.sortBy,
        a.id ≠ cur.id) →
      (filterAndRender host st).currentArtist = none) ∧
    (∀ cur, st.currentArtist = some cur →
      (∃ a ∈ sortedArtists host st.artistsData st.currentSearchTerm st.sortBy,
        a.id = cur.id) →
      (filterAndRender host st).currentArtist = some cur) := by
  have hclear : ∀ cur, st.currentArtist = some cur →
      (∀ a ∈ sortedArtists host st.artistsData st.currentSearchTerm st.sortBy,
        a.id ≠ cur.id) →
      (filterAndRender host st).currentArtist = none := by
    intro cur hcur hnot
    simp only [filterAndRender, hcur, find?_id_eq_none.mpr hnot]
  have hkeep : ∀ cur, st.currentArtist = some cur →
      (∃ a ∈ sortedArtists host st.artistsData st.currentSearchTerm st.sortBy,
        a.id = cur.id) →
      (filterAndRender host st).currentArtist = some cur := by
    intro cur hcur hex
    rcases hf : (sortedArtists host st.artistsData st.currentSearchTerm st.sortBy).find?
        (fun a => decide (a.id = cur.id)) with _ | found
    · obtain ⟨a, ha, hid⟩ := hex
      exact absurd hid (find?_id_eq_none.mp hf a ha)
    · simp only [filterAndRender, hcur, hf]
  refine ⟨?_, hclear, hkeep⟩
  rcases hcur : st.currentArtist with _ | cur
  · left
    simp only [filterAndRender, hcur]
  · by_cases hex : ∃ a ∈ sortedArtists host st.artistsData st.currentSearchTerm st.sortBy,
        a.id = cur.id
    · exact Or.inr ⟨cur, hkeep cur hcur hex, hex⟩
    · left
      apply hclear cur hcur
      intro a ha hid
      exact hex ⟨a, ha, hid⟩


/-! ## Field normalisation: C15, C16, C17, C18 -/

theorem splitTrimFilter_nil : splitTrimFilter [] = [] := by decide

theorem trim_head_not_whiteSpace (p : Str) (c : Char) (h : (trim p).head? = some c) :
    isWhiteSpace c = false := by
  rw [trim_eq_dropWhile_rdropWhile] at h
  have := List.head?_dropWhile_not isWhiteSpace (p.rdropWhile isWhiteSpace)
  rw [h] at this
  simpa using this

theorem trim_last_not_whiteSpace (p : Str) (c : Char) (h : (trim p).getLast? = some c) :
    isWhiteSpace c = false := by
  unfold trim at h
  have hne : (p.dropWhile isWhiteSpace).rdropWhile isWhiteSpace ≠ [] := by
    intro e
    rw [e] at h
    simp at h
  have := List.rdropWhile_last_not isWhiteSpace (p.dropWhile isWhiteSpace) hne
  rw [List.getLast?_eq_getLast _ hne, Option.some.injEq] at h
  rw [h] at this
  simpa using this

/-- C15: a comma-delimited string given as artistId to the server's create or update handler, or
typed as ID, tags or trigger words in the client forms, is normalised to its pieces split on ',',
trimmed, empties dropped, in order; no element of the result is empty, starts or ends with white
space, or contains a comma; an input that is already an array passes through unchanged. -/
theorem artistId_normalised (s : Str) (l : List Str) :
    createArtistIdField (JsonField.text s) = some (splitTrimFilter s) ∧
    updateArtistIdField (JsonField.text s) = some (splitTrimFilter s) ∧
    newArtistIdOf s = splitTrimFilter s ∧
    saveArtistChanges_newArtistId s = splitTrimFilter s ∧
    saveArtistChanges_tags s = splitTrimFilter s ∧
    saveArtistChanges_triggerWords s = splitTrimFilter s ∧
    createArtist_newTags s = splitTrimFilter s ∧
    createArtist_newTriggerWords s = splitTrimFilter s ∧
    (∀ w ∈ splitTrimFilter s, w ≠ [] ∧ ',' ∉ w ∧
      (∀ c, w.head? = some c → isWhiteSpace c = false) ∧
      (∀ c, w.getLast? = some c → isWhiteSpace c = false)) ∧
    createArtistIdField (JsonField.array l) = some l ∧
    updateArtistIdField (JsonField.array l) = some l := by
  have hnil : (if s ≠ [] then splitTrimFilter s else []) = splitTrimFilter s := by
    by_cases h : s = []
    · subst h
      simp [splitTrimFilter_nil]
    · simp [h]
  refine ⟨by simp only [createArtistIdField, hnil], by simp only [updateArtistIdField, hnil],
    ?_, rfl, rfl, rfl, rfl, rfl, ?_, rfl, rfl⟩
  · unfold newArtistIdOf
    by_cases h : s = []
    · subst h
      simp [splitTrimFilter_nil]
    · simp [h]
  · intro w hw
    refine ⟨(mem_splitTrimFilter hw).1, (mem_splitTrimFilter hw).2, ?_, ?_⟩
    · simp only [splitTrimFilter, List.mem_filter, List.mem_map] at hw
      obtain ⟨⟨p, _, rfl⟩, _⟩ := hw
      exact trim_head_not_whiteSpace p
    · simp only [splitTrimFilter, List.mem_filter, List.mem_map] at hw
      obtain ⟨⟨p, _, rfl⟩, _⟩ := hw
      exact trim_last_not_whiteSpace p

theorem digitsValue_foldl_lt (radix : Nat) (z : Str) :
    ∀ acc : Nat, (∀ c ∈ z, isRadixDigit radix c = true) →
      z.foldl (fun acc c => acc * radix + (digitValue c).getD 0) acc
        < (acc + 1) * radix ^ z.length := by
  induction z with
  | nil => intro acc _; simp
  | cons c z ih =>
    intro acc h
    have hc := h c (List.mem_cons_self _ _)
    have hd : (digitValue c).getD 0 < radix := by
      unfold isRadixDigit at hc
      cases hdv : digitValue c with
      | none => simp [hdv] at hc
      | some d => simpa [hdv] using hc
    have hz := ih (acc * radix + (digitValue c).getD 0)
      (fun x hx => h x (List.mem_cons_of_mem _ hx))
    rw [List.foldl_cons, List.length_cons, pow_succ]
    refine lt_of_lt_of_le hz ?_
    calc (acc * radix + (digitValue c).getD 0 + 1) * radix ^ z.length
        ≤ ((acc + 1) * radix) * radix ^ z.length := by
          apply Nat.mul_le_mul_right
          rw [Nat.add_mul, one_mul]
          omega
      _ = (acc + 1) * (radix ^ z.length * radix) := by ring

theorem digitsValue_takeWhile_lt (radix : Nat) (s : Str) :
    digitsValue radix (s.takeWhile (isRadixDigit radix))
      < radix ^ (s.takeWhile (isRadixDigit radix)).length := by
  have h := digitsValue_foldl_lt radix (s.takeWhile (isRadixDigit radix)) 0
    (fun c hc => List.mem_takeWhile_imp hc)
  simpa [digitsValue] using h

theorem parseIntExact_natAbs_lt {t : Str} {v : Int} (h : parseIntExact t = some v) :
    v.natAbs < 2 ^ (4 * t.length) := by
  have key : ∀ (sign : Int) (radix : Nat) (s : Str), (sign = 1 ∨ sign = -1) →
      (radix = 10 ∨ radix = 16) → s.length ≤ t.length →
      (if s.takeWhile (isRadixDigit radix) = [] then none
        else some (sign * (digitsValue radix (s.takeWhile (isRadixDigit radix)) : Int)))
        = some v → v.natAbs < 2 ^ (4 * t.length) := by
    intro sign radix s hsign hradix hlen hv
    split_ifs at hv
    simp only [Option.some.injEq] at hv
    have hlt := digitsValue_takeWhile_lt radix s
    have hzlen : (s.takeWhile (isRadixDigit radix)).length ≤ t.length :=
      le_trans (List.takeWhile_sublist _).length_le hlen
    have habs : v.natAbs = digitsValue radix (s.takeWhile (isRadixDigit radix)) := by
      rw [← hv, Int.natAbs_mul, Int.natAbs_ofNat]
      rcases hsign with e | e <;> simp [e]
    rw [habs]
    refine lt_of_lt_of_le hlt ?_
    calc radix ^ (s.takeWhile (isRadixDigit radix)).length
        ≤ 16 ^ (s.takeWhile (isRadixDigit radix)).length := by
          apply Nat.pow_le_pow_left
          rcases hradix with e | e <;> omega
      _ ≤ 16 ^ t.length := Nat.pow_le_pow_right (by decide) hzlen
      _ = 2 ^ (4 * t.length) := by rw [pow_mul]; rfl
  unfold parseIntExact at h
  simp only at h
  have hs0 : (t.dropWhile isWhiteSpace).length ≤ t.length :=
    (List.dropWhile_suffix isWhiteSpace).sublist.length_le
  generalize t.dropWhile isWhiteSpace = s0 at h hs0
  refine key _ _ _ ?_ ?_ ?_ h
  · split <;> simp
  · split <;> simp
  · have h1 : (match s0 with
        | '-' :: rest => rest
        | '+' :: rest => rest
        | _ => s0).length ≤ s0.length := by
      split <;> simp
    generalize (match s0 with
        | '-' :: rest => rest
        | '+' :: rest => rest
        | _ => s0) = s1 at h1 ⊢
    have h2 : (match s1 with
        | '0' :: 'x' :: rest => rest
        | '0' :: 'X' :: rest => rest
        | _ => s1).length ≤ s1.length := by
      split <;> simp <;> omega
    omega

theorem ofInt_ne_nan (n : Int) : JsNumber.ofInt n ≠ JsNumber.nan := by
  unfold JsNumber.ofInt
  split_ifs <;> simp

theorem orZero_ne_nan (x : JsNumber) : x.orZero ≠ JsNumber.nan := by
  cases x with
  | nan => simp [JsNumber.orZero]
  | infinity s => simp [JsNumber.orZero]
  | finite n =>
    simp only [JsNumber.orZero]
    split_ifs <;> simp

theorem orZero_of_ne_nan {x : JsNumber} (h : x ≠ JsNumber.nan) : x.orZero = x := by
  cases x with
  | nan => exact absurd rfl h
  | infinity s => rfl
  | finite n =>
    simp only [JsNumber.orZero]
    split_ifs with h0
    · rw [h0]
    · rfl

theorem orZero_parseInt (p : Str) : (parseInt (trim p)).orZero = pieceNumber p := by
  unfold parseInt pieceNumber
  cases parseIntExact (trim p) with
  | none => rfl
  | some v => exact orZero_of_ne_nan (ofInt_ne_nan v)

theorem parsedPieces_eq (s : Str) : parsedPieces s = (split s).map pieceNumber := by
  unfold parsedPieces
  exact List.map_congr_left (fun p _ => orZero_parseInt p)

theorem filterNotNaN_parsedPieces (s : Str) : filterNotNaN (parsedPieces s) = parsedPieces s := by
  unfold filterNotNaN
  rw [List.filter_eq_self]
  intro c hc
  simp only [parsedPieces, List.mem_map] at hc
  obtain ⟨p, _, rfl⟩ := hc
  simpa using orZero_ne_nan _

theorem parseNumbers_eq (s : Str) : parseNumbers s = (split s).map pieceNumber := by
  unfold parseNumbers
  rw [filterNotNaN_parsedPieces, parsedPieces_eq]

theorem parseCounts_eq (s : Str) :
    parseCounts s = (split s).map (fun p => jsonOfNumber (pieceNumber p)) := by
  unfold parseCounts
  rw [parseNumbers_eq, List.map_map]
  rfl

theorem pieceNumber_of_safe {p : Str} {v : Int} (h : parseIntExact (trim p) = some v)
    (hv : v.natAbs < 2 ^ 53) : pieceNumber p = JsNumber.finite v := by
  unfold pieceNumber
  rw [h]
  exact ofInt_of_natAbs_lt hv

/-- C16: for a non-empty comma-delimited training-count string the normalised trainingCount has
one entry per comma-separated piece, in order, each the number of the piece's parsed integer
(that integer itself when its magnitude is below 2^53) or 0 when the piece does not parse; no
piece is dropped, the NaN filter removes nothing; this is the array the create and update
handlers and both client forms produce. -/
theorem trainingCount_one_entry_per_piece (s : Str) (hne : s ≠ []) :
    parseNumbers s = (split s).map pieceNumber ∧
    parseCounts s = (split s).map (fun p => jsonOfNumber (pieceNumber p)) ∧
    (parseCounts s).length = (split s).length ∧
    (∀ c ∈ parsedPieces s, c ≠ JsNumber.nan) ∧
    filterNotNaN (parsedPieces s) = parsedPieces s ∧
    (∀ p ∈ split s,
      (parseIntExact (trim p) = none → jsonOfNumber (pieceNumber p) = Count.num 0) ∧
      (∀ v : Int, parseIntExact (trim p) = some v → v.natAbs < 2 ^ 53 →
        jsonOfNumber (pieceNumber p) = Count.num v)) ∧
    createTrainingCountField (JsonField.text s) = some (parseCounts s) ∧
    updateTrainingCountField (JsonField.text s) = some (parseCounts s) ∧
    createArtist_newTrainingCount s = parseCounts s ∧
    saveArtistChanges_newTrainingCount s = parseCounts s := by
  refine ⟨parseNumbers_eq s, parseCounts_eq s, by rw [parseCounts_eq, List.length_map], ?_,
    filterNotNaN_parsedPieces s, ?_,
    by simp [createTrainingCountField, hne], by simp [updateTrainingCountField, hne],
    by simp [createArtist_newTrainingCount, hne], rfl⟩
  · intro c hc
    simp only [parsedPieces, List.mem_map] at hc
    obtain ⟨p, _, rfl⟩ := hc
    exact orZero_ne_nan _
  · intro p _
    refine ⟨fun h => ?_, fun v h hv => ?_⟩
    · simp [pieceNumber, h, jsonOfNumber]
    · rw [pieceNumber_of_safe h hv]
      rfl

theorem trainingCount_one_entry_per_piece_witness :
    "5, x,,3".toList ≠ [] ∧
    createTrainingCountField (JsonField.text "5, x,,3".toList)
      = some [Count.num 5, Count.num 0, Count.num 0, Count.num 3] :=
  ⟨by decide,
    (trainingCount_one_entry_per_piece "5, x,,3".toList (by decide)).2.2.2.2.2.2.1.trans
      (by decide)⟩

theorem parseIntExact_nonneg {t : Str} (h : '-' ∉ t) (n : Int) (hn : parseIntExact t = some n) :
    0 ≤ n := by
  have hsuf : '-' ∉ t.dropWhile isWhiteSpace :=
    fun hm => h ((List.dropWhile_suffix isWhiteSpace).subset hm)
  unfold parseIntExact at hn
  simp only at hn
  generalize t.dropWhile isWhiteSpace = s at hn hsuf
  have hsign : (match s with
      | '-' :: _ => (-1 : Int)
      | _ => 1) = 1 := by
    split
    · next r => exact absurd (List.mem_cons_self _ _) hsuf
    · rfl
  rw [hsign] at hn
  split_ifs at hn
  simp only [one_mul, Option.some.injEq] at hn
  rw [← hn]
  exact Int.ofNat_nonneg _

theorem ofInt_nonneg {n : Int} (h : 0 ≤ n) :
    JsNumber.ofInt n = JsNumber.infinity false ∨ ∃ m, JsNumber.ofInt n = JsNumber.finite m ∧ 0 ≤ m := by
  unfold JsNumber.ofInt
  have hn : ¬ n < 0 := not_lt.mpr h
  split_ifs
  · left
    simp [hn]
  · right
    exact ⟨_, rfl, Int.ofNat_nonneg _⟩

/-- C17 (as stated, refuted): the training-count string "-5" is normalised, on the create and
update paths of the server and in the client form alike, to the single entry -5, which is
negative. -/
theorem trainingCount_negative_entry :
    parseNumbers "-5".toList = [JsNumber.finite (-5)] ∧
    createTrainingCountField (JsonField.text "-5".toList) = some [Count.num (-5)] ∧
    updateTrainingCountField (JsonField.text "-5".toList) = some [Count.num (-5)] ∧
    createArtist_newTrainingCount "-5".toList = [Count.num (-5)] ∧
    ¬ ((0 : Int) ≤ -5) := by
  decide

set_option maxRecDepth 100000 in
set_option exponentiation.threshold 1100 in
/-- A piece of 309 digits can exceed the range of a double: parseInt gives Infinity, which
passes `|| 0` and the NaN filter, and the create and update handlers store it as null. -/
theorem trainingCount_overflow_entry :
    overflowingPiece.length = 309 ∧
    parseNumbers overflowingPiece = [JsNumber.infinity false] ∧
    createTrainingCountField (JsonField.text overflowingPiece) = some [Count.null] ∧
    updateTrainingCountField (JsonField.text overflowingPiece) = some [Count.null] := by
  decide

/-- C17 (amended): every entry of the trainingCount sequence normalised from a string is the
number of one comma-separated piece and is never NaN; it is not negative when the piece contains
no minus sign; and it is an integer, written as such into the stored document, when the piece
has at most 255 characters. (A longer piece can exceed the range of a double: the entry is then
an infinity, which the stored document holds as null.) -/
theorem trainingCount_entries_integer (s : Str) :
    ∀ c ∈ parseNumbers s, ∃ p ∈ split s, c = pieceNumber p ∧ c ≠ JsNumber.nan ∧
      ('-' ∉ p → c = JsNumber.infinity false ∨ ∃ n : Int, c = JsNumber.finite n ∧ 0 ≤ n) ∧
      (p.length ≤ 255 → ∃ n : Int, c = JsNumber.finite n ∧ jsonOfNumber c = Count.num n) := by
  intro c hc
  rw [parseNumbers_eq, List.mem_map] at hc
  obtain ⟨p, hp, rfl⟩ := hc
  refine ⟨p, hp, rfl, ?_, fun hminus => ?_, fun hlen => ?_⟩
  · rw [← orZero_parseInt]
    exact orZero_ne_nan _
  · unfold pieceNumber
    cases hpe : parseIntExact (trim p) with
    | none => exact Or.inr ⟨0, rfl, le_refl 0⟩
    | some v =>
      exact ofInt_nonneg (parseIntExact_nonneg
        (fun hm => hminus ((trim_sublist p).subset hm)) v hpe)
  · unfold pieceNumber
    cases hpe : parseIntExact (trim p) with
    | none => exact ⟨0, rfl, rfl⟩
    | some v =>
      have hlt := parseIntExact_natAbs_lt hpe
      have htl : (trim p).length ≤ 255 := le_trans (trim_sublist p).length_le hlen
      obtain ⟨m, hm⟩ := ofInt_finite (k := 4 * (trim p).length) (by omega) hlt
      exact ⟨m, hm, by simp only [hm]; rfl⟩

theorem trainingCount_entries_integer_witness :
    JsNumber.finite 7 ∈ parseNumbers "5, 7px".toList ∧
    ∃ p ∈ split "5, 7px".toList, JsNumber.finite 7 = pieceNumber p ∧
      JsNumber.finite 7 ≠ JsNumber.nan ∧
      ('-' ∉ p → JsNumber.finite 7 = JsNumber.infinity false ∨
        ∃ n : Int, JsNumber.finite 7 = JsNumber.finite n ∧ 0 ≤ n) ∧
      (p.length ≤ 255 →
        ∃ n : Int, JsNumber.finite 7 = JsNumber.finite n ∧
          jsonOfNumber (JsNumber.finite 7) = Count.num n) :=
  ⟨by decide, trainingCount_entries_integer "5, 7px".toList (JsNumber.finite 7) (by decide)⟩

/-- C18 (as stated, refuted): on the update path an absent or empty-string trainingCount is not
normalised to the empty sequence: the server's update handler and the client's save form both
give [0]. -/
theorem update_absent_trainingCount_not_empty :
    updateTrainingCountField (JsonField.absent) ≠ some [] ∧
    updateTrainingCountField (JsonField.text []) ≠ some [] ∧
    saveArtistChanges_newTrainingCount [] ≠ [] ∧
    updateTrainingCountField (JsonField.absent) = some [Count.num 0] := by
  decide

/-- C18 (amended): normalising an absent input is the same on the create and update paths: an
absent or empty-string trainingCount yields the single-element sequence [0] on both (server
handlers and client forms), and an absent artistId yields the empty sequence on both. -/
theorem absent_input_normalisation :
    createTrainingCountField (JsonField.absent) = some [Count.num 0] ∧
    updateTrainingCountField (JsonField.absent) = some [Count.num 0] ∧
    createTrainingCountField (JsonField.text []) = some [Count.num 0] ∧
    updateTrainingCountField (JsonField.text []) = some [Count.num 0] ∧
    createArtist_newTrainingCount [] = [Count.num 0] ∧
    saveArtistChanges_newTrainingCount [] = [Count.num 0] ∧
    createArtistIdField (JsonField.absent) = some [] ∧
    updateArtistIdField (JsonField.absent) = some [] := by
  decide


/-! ## The create and update handlers: C19, C20 -/

theorem createRecord_eq_some {today : Str} {newId : Int} {draft : Draft} {r : StoredArtist}
    (h : createRecord today newId draft = some r) :
    ∃ ids counts name, createArtistIdField draft.artistId = some ids ∧
      createTrainingCountField draft.trainingCount = some counts ∧ draft.name = some name ∧
      r.id = newId ∧ r.name = name ∧
      r.artistId = JsonField.array ids ∧ r.trainingCount = JsonField.array counts ∧
      r.tags = draft.tags ∧ r.triggerWords = draft.triggerWords ∧
      r.sampleImages = sampleImagesOrEmpty draft.sampleImages := by
  unfold createRecord at h
  split at h
  · next ids counts name h1 h2 h3 =>
    simp only [Option.some.injEq] at h
    subst h
    exact ⟨ids, counts, name, h1, h2, h3, rfl, rfl, rfl, rfl, rfl, rfl, rfl⟩
  · exact absurd h (by simp)

theorem updateRecord_eq_some {stored : StoredArtist} {draft : Draft} {r : StoredArtist}
    (h : updateRecord stored draft = some r) :
    ∃ ids counts, updateArtistIdField draft.artistId = some ids ∧
      updateTrainingCountField draft.trainingCount = some counts ∧
      r.id = stored.id ∧
      r.artistId = JsonField.array ids ∧ r.trainingCount = JsonField.array counts ∧
      r.tags = spreadField stored.tags draft.tags ∧
      r.triggerWords = spreadField stored.triggerWords draft.triggerWords ∧
      r.sampleImages = spreadField stored.sampleImages draft.sampleImages ∧
      r.createTime = draft.createTime.getD stored.createTime := by
  unfold updateRecord at h
  split at h
  · next ids counts h1 h2 =>
    simp only [Option.some.injEq] at h
    subst h
    exact ⟨ids, counts, h1, h2, rfl, rfl, rfl, rfl, rfl, rfl, rfl⟩
  · exact absurd h (by simp)

theorem createArtistIdField_isSome (v : JsonField Str) :
    (createArtistIdField v).isSome = true ↔ ∀ n, v = JsonField.number n → n = 0 := by
  cases v with
  | absent => simp [createArtistIdField]
  | text s => simp [createArtistIdField]
  | number n => by_cases h : n = 0 <;> simp [createArtistIdField, h]
  | array l => simp [createArtistIdField]

theorem createTrainingCountField_isSome (v : JsonField Count) :
    (createTrainingCountField v).isSome = true ↔ ∀ n, v = JsonField.number n → n = 0 := by
  cases v with
  | absent => simp [createTrainingCountField]
  | text s => simp [createTrainingCountField]
  | number n => by_cases h : n = 0 <;> simp [createTrainingCountField, h]
  | array l => simp [createTrainingCountField]

/-- C19 (as stated, refuted): a create draft whose tags is the bare string "a,b" and whose
sampleImages is the bare string "x.png" is accepted, and the stored and returned record keeps
both as bare strings, not sequences. -/
theorem createRecord_keeps_bare_string :
    (createRecord "2026-01-01".toList 77
      { baseDraft with tags := JsonField.text "a,b".toList,
                       sampleImages := JsonField.text "x.png".toList }).map
        (fun r => (r.tags, r.sampleImages, r.tags.isArray, r.sampleImages.isArray))
      = some (JsonField.text "a,b".toList, JsonField.text "x.png".toList, false, false) := by
  decide

/-- C19 (amended): for every draft accepted by the server's create or update handler, artistId
and trainingCount of the stored and returned record are sequences; tags and triggerWords are
kept as the draft gives them (on update, as the stored record has them when the draft omits
them), and so is sampleImages, except that create replaces an absent or falsy value by the empty
sequence. A create draft is accepted exactly when it has a name and neither artistId nor
trainingCount is a non-zero number. -/
theorem handlers_normalise_ids_and_counts (today : Str) (newId : Int) (stored : StoredArtist)
    (draft : Draft) :
    (∀ r, createRecord today newId draft = some r →
      r.artistId.isArray = true ∧ r.trainingCount.isArray = true ∧
      r.tags = draft.tags ∧ r.triggerWords = draft.triggerWords ∧
      r.sampleImages = sampleImagesOrEmpty draft.sampleImages) ∧
    (∀ r, updateRecord stored draft = some r →
      r.artistId.isArray = true ∧ r.trainingCount.isArray = true ∧
      r.tags = spreadField stored.tags draft.tags ∧
      r.triggerWords = spreadField stored.triggerWords draft.triggerWords ∧
      r.sampleImages = spreadField stored.sampleImages draft.sampleImages) ∧
    ((createRecord today newId draft).isSome = true ↔
      (draft.name ≠ none ∧ (∀ n, draft.artistId = JsonField.number n → n = 0) ∧
        (∀ n, draft.trainingCount = JsonField.number n → n = 0))) := by
  refine ⟨fun r h => ?_, fun r h => ?_, ?_⟩
  · obtain ⟨ids, counts, name, _, _, _, _, _, h1, h2, h3, h4, h5⟩ := createRecord_eq_some h
    exact ⟨by rw [h1]; rfl, by rw [h2]; rfl, h3, h4, h5⟩
  · obtain ⟨ids, counts, _, _, _, h1, h2, h3, h4, h5, _⟩ := updateRecord_eq_some h
    exact ⟨by rw [h1]; rfl, by rw [h2]; rfl, h3, h4, h5⟩
  · rw [← createArtistIdField_isSome, ← createTrainingCountField_isSome]
    unfold createRecord
    rcases createArtistIdField draft.artistId with _ | ids <;>
      rcases createTrainingCountField draft.trainingCount with _ | counts <;>
      rcases draft.name with _ | name <;> simp

/-- C20 (as stated, refuted): an update draft carrying createTime "1999-01-01" for a stored
record created on "2024-01-01" is accepted, and the resulting record has createTime
"1999-01-01". -/
theorem putArtist_overwrites_createTime :
    baseStored.createTime = "2024-01-01".toList ∧
    putArtist [baseStored] 5 { baseDraft with createTime := some "1999-01-01".toList }
      = PutResponse.ok { baseStored with createTime := "1999-01-01".toList,
                                         trainingCount := JsonField.array [Count.num 0] } := by
  decide

/-- C20 (amended): for every stored record and every accepted update draft that carries no
createTime, or carries the createTime the stored record has, the createTime of the resulting
record equals the one before the update; the id is kept whatever the draft contains. -/
theorem updateRecord_keeps_createTime (stored : StoredArtist) (draft : Draft) (r : StoredArtist)
    (hct : draft.createTime = none ∨ draft.createTime = some stored.createTime)
    (h : updateRecord stored draft = some r) :
    r.createTime = stored.createTime ∧ r.id = stored.id := by
  obtain ⟨ids, counts, _, _, hid, _, _, _, _, _, hc⟩ := updateRecord_eq_some h
  refine ⟨?_, hid⟩
  rw [hc]
  rcases hct with hct | hct <;> simp [hct]

theorem updateRecord_keeps_createTime_witness :
    baseDraft.createTime = none ∧
    updateRecord baseStored { baseDraft with name := some "Bar".toList }
      = some { baseStored with name := "Bar".toList,
                               trainingCount := JsonField.array [Count.num 0] } ∧
    ({ baseStored with name := "Bar".toList,
                       trainingCount := JsonField.array [Count.num 0] } : StoredArtist).createTime
      = baseStored.createTime :=
  ⟨rfl, by decide,
    (updateRecord_keeps_createTime baseStored { baseDraft with name := some "Bar".toList }
      { baseStored with name := "Bar".toList, trainingCount := JsonField.array [Count.num 0] }
      (Or.inl rfl) (by decide)).1⟩


/-! ## The record store: C21, C22 -/

/-- C21 (code evaluated at the failing input): a record named "FooBar" is created with id 5, so
the store holds exactly one document for that id; after the update that renames it to "Foo", a
prefix of the old name, writeArtistData has kept "FooBar-5.json" and added "Foo-5.json" (the
directory lists them as "Foo-5.json", "FooBar-5.json"), and readArtistsData returns two records
with id 5. -/
theorem writeArtistData_rename_keeps_old_document :
    (readdirSync storeAfterCreate).map (fun f => f.name) = ["FooBar-5.json".toList] ∧
    (readArtistsData storeAfterCreate).map (fun a => a.id) = [5] ∧
    (readdirSync storeAfterRename).map (fun f => f.name)
      = ["Foo-5.json".toList, "FooBar-5.json".toList] ∧
    (readArtistsData storeAfterRename).map (fun a => (a.id, a.name))
      = [(5, "Foo".toList), (5, "FooBar".toList)] := by
  decide

/-- C22 (code evaluated at the failing inputs): in the store left by the rename above, DELETE
/api/artists/5 answers 204 and removes only the first listed of the two documents of id 5,
"Foo-5.json", so readArtistsData still returns a record with that id, the one named "FooBar";
and in a store with the documents "Bar-15.json" and "Foo-5.json", DELETE /api/artists/5 removes
the document of id 15, whose file name also ends in "5.json", and leaves the record with
id 5. -/
theorem deleteArtistHandler_leaves_record :
    (deleteArtistHandler storeAfterRename 5).1 = DeleteResponse.noContent ∧
    (readdirSync (deleteArtistHandler storeAfterRename 5).2).map (fun f => f.name)
      = ["FooBar-5.json".toList] ∧
    (readArtistsData (deleteArtistHandler storeAfterRename 5).2).map (fun a => (a.id, a.name))
      = [(5, "FooBar".toList)] ∧
    (readdirSync storeWithSuffixIds).map (fun f => f.name)
      = ["Bar-15.json".toList, "Foo-5.json".toList] ∧
    (readArtistsData storeWithSuffixIds).map (fun a => a.id) = [15, 5] ∧
    (deleteArtistHandler storeWithSuffixIds 5).1 = DeleteResponse.noContent ∧
    (readdirSync (deleteArtistHandler storeWithSuffixIds 5).2).map (fun f => f.name)
      = ["Foo-5.json".toList] ∧
    (readArtistsData (deleteArtistHandler storeWithSuffixIds 5).2).map (fun a => a.id) = [5] := by
  decide

/-! ## Client mutations and the store: C23 -/

/-- C23 (code evaluated at the failing inputs): with one loaded record whose sampleImages is
["a.png"], addSampleImages with a successful upload of "b.png" and a failed store request leaves
artistsData holding ["a.png", "b.png"], and deleteSampleImage of index 0 with a failed store
request leaves it holding no sample image; in both cases artistsData differs from what it was
before the operation, whether or not the selection is the object held in the list; when it is,
as after selecting the record from the list, the selection shows the change as well. -/
theorem sampleImages_changed_before_store_confirms :
    (∀ sameObject : Bool,
      (addSampleImages (oneSelected (withSamples 1 ["a.png".toList])) sameObject
          [some "b.png".toList] (fun _ => none)).artistsData
        = [withSamples 1 ["a.png".toList, "b.png".toList]] ∧
      (addSampleImages (oneSelected (withSamples 1 ["a.png".toList])) sameObject
          [some "b.png".toList] (fun _ => none)).artistsData
        ≠ (oneSelected (withSamples 1 ["a.png".toList])).artistsData ∧
      (deleteSampleImage (oneSelected (withSamples 1 ["a.png".toList])) sameObject 1 0 true
          (fun _ => none)).artistsData
        = [withSamples 1 []] ∧
      (deleteSampleImage (oneSelected (withSamples 1 ["a.png".toList])) sameObject 1 0 true
          (fun _ => none)).artistsData
        ≠ (oneSelected (withSamples 1 ["a.png".toList])).artistsData) ∧
    (addSampleImages (oneSelected (withSamples 1 ["a.png".toList])) true
        [some "b.png".toList] (fun _ => none)).currentArtist
      = some (withSamples 1 ["a.png".toList, "b.png".toList]) ∧
    (deleteSampleImage (oneSelected (withSamples 1 ["a.png".toList])) true 1 0 true
        (fun _ => none)).currentArtist
      = some (withSamples 1 []) ∧
    (addSampleImages (oneSelected (withSamples 1 ["a.png".toList])) false
        [some "b.png".toList] (fun _ => none)).currentArtist
      = some (withSamples 1 ["a.png".toList]) := by
  decide

/-! ## Placeholder images: C24 -/

theorem placeholder_startsWith {f : File} (h : isPlaceholderFile f) :
    startsWith f.name "placeholder-".toList = true := by
  rcases h with h | h <;> rw [h] <;> decide

theorem placeholder_not_endsWith_json {f : File} (h : isPlaceholderFile f) (s : Str) :
    endsWith f.name (s ++ ".json".toList) = false := by
  rw [Bool.eq_false_iff]
  intro he
  unfold endsWith at he
  rw [List.isSuffixOf_iff_suffix] at he
  have hs : ".json".toList <:+ f.name := (List.suffix_append s _).trans he
  rcases h with h | h <;> rw [h] at hs <;> revert hs <;> decide

theorem mem_unlinkImages_of_placeholder {dir : Directory} {f : File} (refs : List Str)
    (hf : f ∈ dir) (h : isPlaceholderFile f) : f ∈ unlinkImages dir refs := by
  unfold unlinkImages
  rw [List.mem_filter]
  refine ⟨hf, ?_⟩
  simp only [Bool.not_eq_true', List.any_eq_false, Bool.and_eq_true, decide_eq_true_eq,
    Bool.not_eq_true', not_and, Bool.not_eq_false]
  intro imgPath _ hname
  rw [← hname]
  exact placeholder_startsWith h

theorem mem_deleteArtistJson_of_placeholder {dir : Directory} {f : File} (artistId : Int)
    (hf : f ∈ dir) (h : isPlaceholderFile f) : f ∈ deleteArtistJson dir artistId := by
  unfold deleteArtistJson
  split
  · next artistFile hfound =>
    rw [List.mem_filter]
    refine ⟨hf, ?_⟩
    have hends := List.find?_some hfound
    simp only [decide_eq_true_eq]
    intro hname
    rw [← hname, placeholder_not_endsWith_json h] at hends
    exact absurd hends (by decide)
  · exact hf

/-- C24: a placeholder image file (placeholder-artist.png or placeholder-sample.png) that is in
the image directory is still there after DELETE /api/artists/:id, whatever the record's image
references, and after POST /api/delete-image, whatever the reference; delete-image answers a
reference whose base name starts with "placeholder-", the two well-known paths among them, with
a rejection and leaves the directory as it is. -/
theorem placeholders_never_deleted (dir : Directory) (artistId : Int) (imagePath : Str)
    (f : File) (hf : f ∈ dir) (hp : isPlaceholderFile f) :
    f ∈ (deleteArtistHandler dir artistId).2 ∧
    f ∈ (deleteImageHandler dir imagePath).2 ∧
    (imagePath ≠ [] → startsWith (basename imagePath) "placeholder-".toList = true →
      deleteImageHandler dir imagePath = (DeleteImageResponse.forbidden, dir)) ∧
    deleteImageHandler dir "/images/placeholder-artist.png".toList
      = (DeleteImageResponse.forbidden, dir) ∧
    deleteImageHandler dir "/images/placeholder-sample.png".toList
      = (DeleteImageResponse.forbidden, dir) := by
  have hforbid : ∀ p : Str, p ≠ [] → startsWith (basename p) "placeholder-".toList = true →
      deleteImageHandler dir p = (DeleteImageResponse.forbidden, dir) := by
    intro p hne hs
    simp only [deleteImageHandler, hne, if_false, hs, or_true, if_true]
  refine ⟨?_, ?_, hforbid imagePath, hforbid _ (by decide) (by decide),
    hforbid _ (by decide) (by decide)⟩
  · unfold deleteArtistHandler
    split
    · exact hf
    · split
      · exact hf
      · exact mem_unlinkImages_of_placeholder _
          (mem_deleteArtistJson_of_placeholder artistId hf hp) hp
  · unfold deleteImageHandler
    simp only
    split_ifs with h1 h2 h3 h4
    · exact hf
    · exact hf
    · exact hf
    · rw [List.mem_filter]
      refine ⟨hf, ?_⟩
      simp only [decide_eq_true_eq]
      intro hname
      apply h2
      right
      rw [← hname]
      exact placeholder_startsWith hp
    · exact hf

theorem placeholders_never_deleted_witness :
    ({ name := "placeholder-sample.png".toList, content := FileContent.other } : File)
      ∈ sampleDirectory ∧
    ({ name := "placeholder-sample.png".toList, content := FileContent.other } : File)
      ∈ (deleteArtistHandler sampleDirectory 5).2 ∧
    (deleteArtistHandler sampleDirectory 5).2.map (fun f => f.name)
      = ["placeholder-artist.png".toList, "placeholder-sample.png".toList] :=
  ⟨by decide,
    (placeholders_never_deleted sampleDirectory 5 "/images/Placeholder-sample.png".toList
      { name := "placeholder-sample.png".toList, content := FileContent.other }
      (by decide) (Or.inr rfl)).1,
    by decide⟩


/-! ## Forward composition and reverse matching: C25 -/

theorem chainTokensFolded_eq_map (host : Host) (s : Str) :
    chainTokensFolded host s = (splitTrimFilter s).map host.toLowerCase := by
  unfold chainTokensFolded splitTrimFilter
  rw [List.filter_map]
  congr 1
  apply List.filter_congr
  intro x _
  by_cases hx : x = []
  · simp [hx, host.toLowerCase_nil]
  · simp [hx, host.toLowerCase_ne_nil x hx]

/-- C25: in every browser, whatever letters its toLowerCase folds, when a record of artistsData has a trigger word that is non-empty, comma-free and has no
leading or trailing white space, then after addArtistTriggerWordsToChain has added the record to
any chain, reverse matching the resulting chain matches that record, and every entry of the
record's artistId array is in the resulting ID set. -/
theorem chain_then_match (host : Host) (artist : Artist) (chainValue : Str)
    (artistsData : List Artist) (tw : List Str) (w : Str) (hr : artist ∈ artistsData)
    (htw : artist.triggerWords = some tw) (hw : w ∈ tw)
    (htoken : w ≠ [] ∧ ',' ∉ w ∧ trim w = w) :
    recordMatches host (addArtistTriggerWordsToChain artist chainValue) artist ∧
    ∀ ids, artist.artistId = some ids → ∀ v ∈ ids,
      v ∈ (saveArtistChainAsNewArtist host (addArtistTriggerWordsToChain artist chainValue)
        artistsData).matchedArtistIds := by
  have hne : tw ≠ [] := List.ne_nil_of_mem hw
  have hmem : w ∈ splitTrimFilter (addArtistTriggerWordsToChain artist chainValue) := by
    rw [splitTrimFilter_addArtistTriggerWordsToChain artist chainValue tw htw hne,
      mem_firstOccurrences, List.mem_append, List.mem_flatMap]
    right
    exact ⟨w, hw, by rw [splitTrimFilter_of_isToken htoken]; exact List.mem_singleton.mpr rfl⟩
  have hmatch : recordMatches host (addArtistTriggerWordsToChain artist chainValue) artist := by
    refine ⟨w, by simpa [htw] using hw, ?_⟩
    rw [chainTokensFolded_eq_map]
    exact List.mem_map_of_mem _ hmem
  refine ⟨hmatch, fun ids hids v hv => ?_⟩
  unfold saveArtistChainAsNewArtist
  rw [mem_foldl_matchArtist_ids]
  exact Or.inr ⟨artist, hr, hmatch, ids, hids, hv⟩

theorem chain_then_match_witness :
    storedRecord 1 ["x1".toList, "x2".toList] [Count.num 5] ["Blue Sky".toList, "g, h".toList]
      ∈ [storedRecord 2 ["y".toList] [] ["red".toList],
         storedRecord 1 ["x1".toList, "x2".toList] [Count.num 5]
           ["Blue Sky".toList, "g, h".toList]] ∧
    (saveArtistChainAsNewArtist caseInsensitiveHost
      (addArtistTriggerWordsToChain
        (storedRecord 1 ["x1".toList, "x2".toList] [Count.num 5]
          ["Blue Sky".toList, "g, h".toList]) "red, blue sky".toList)
      [storedRecord 2 ["y".toList] [] ["red".toList],
       storedRecord 1 ["x1".toList, "x2".toList] [Count.num 5]
         ["Blue Sky".toList, "g, h".toList]]).matchedArtistIds
      = ["y".toList, "x1".toList, "x2".toList] ∧
    "x2".toList ∈ (saveArtistChainAsNewArtist caseInsensitiveHost
      (addArtistTriggerWordsToChain
        (storedRecord 1 ["x1".toList, "x2".toList] [Count.num 5]
          ["Blue Sky".toList, "g, h".toList]) "red, blue sky".toList)
      [storedRecord 2 ["y".toList] [] ["red".toList],
       storedRecord 1 ["x1".toList, "x2".toList] [Count.num 5]
         ["Blue Sky".toList, "g, h".toList]]).matchedArtistIds :=
  ⟨by decide, by decide,
    (chain_then_match caseInsensitiveHost
      (storedRecord 1 ["x1".toList, "x2".toList] [Count.num 5]
        ["Blue Sky".toList, "g, h".toList]) "red, blue sky".toList
      [storedRecord 2 ["y".toList] [] ["red".toList],
       storedRecord 1 ["x1".toList, "x2".toList] [Count.num 5]
         ["Blue Sky".toList, "g, h".toList]]
      ["Blue Sky".toList, "g, h".toList] "Blue Sky".toList (by decide) rfl (by decide)
      (by decide)).2 ["x1".toList, "x2".toList] rfl "x2".toList (by decide)⟩
